import Mathlib

/-!
# Hill-climbing photo reconstruction: embedding of `src/main.cpp`

The program evolves a fixed-length list of tinted, transformed sprites (`gene`) so that their
rendering approaches a target image.  This file embeds the argument parser, the mutation
operator, the pixel-difference evaluator and the accept/reject driver, and states the
properties of the specification over that embedding.

Conventions of the embedding.
* `float` is IEEE 754 binary32 (`Float32`): every operation rounds its exact result to nearest,
  ties to even, with infinities and not-a-number; the two zeros are identified.
* `uint8_t` is `Fin 256`; `int`, `long long`, `unsigned`, `size_t` are `Int`/`Nat` with an explicit
  reduction at the width the source computes in.
* Random draws are explicit arguments; the renderer (SFML) is a function argument.
* A result of `none` stands for undefined behaviour of the C++ program (an out-of-range access
  of `std::vector::operator[]`), never for a reported error.
-/

namespace GeneticPhoto

/-! ## Machine integers -/

/-- Reduction of an integer to the range of a signed 64-bit `long long`. -/
def wrapInt64 (x : Int) : Int := (x + 2 ^ 63) % 2 ^ 64 - 2 ^ 63

/-- Reduction of an integer to the range of a signed 32-bit `int`. -/
def wrapInt32 (x : Int) : Int := (x + 2 ^ 31) % 2 ^ 32 - 2 ^ 31

/-- The C function `abs` on `int`. -/
def absInt (x : Int) : Int := if x < 0 then -x else x

/-! ## Fitness evaluation (`evaluate`, lines 159-182) -/

/-- A pixel buffer as read through a `const uint8_t*`: the byte at each offset. -/
abbrev PixelBuffer := Nat → Fin 256

/-- The byte at offset `i`, promoted to `int` as in `targetPixels[i] - genePixels[i]`. -/
def byteAt (p : PixelBuffer) (i : Nat) : Int := ((p i).val : Int)

/-- The loop `for (size_t i = 0; i < totalBytes; i += 4)` of `evaluate`, with the two
`totalError +=` updates carried out in `long long`.  The first argument is recursion fuel;
`evaluateBuffers` supplies `totalBytes`, which is never exhausted before the loop exits. -/
def evaluateLoop (targetPixels genePixels : PixelBuffer) (totalBytes : Nat) :
    Nat → Nat → Int → Int
  | 0, _, totalError => totalError
  | fuel + 1, i, totalError =>
    if i < totalBytes then
      let diffR := absInt (byteAt targetPixels i - byteAt genePixels i)
      let diffG := absInt (byteAt targetPixels (i + 1) - byteAt genePixels (i + 1))
      let diffB := absInt (byteAt targetPixels (i + 2) - byteAt genePixels (i + 2))
      let totalError1 := wrapInt64 (totalError + (diffR + diffG + diffB))
      let diffA := absInt (byteAt targetPixels (i + 3) - byteAt genePixels (i + 3))
      let totalError2 := wrapInt64 (totalError1 + diffA * diffA)
      evaluateLoop targetPixels genePixels totalBytes fuel (i + 4) totalError2
    else totalError

/-- The size computation `size_t totalBytes = width * height * 4`: `width` and `height` are
`unsigned int` (the components of `sf::Vector2u`), so the product is formed modulo `2^32`
before it is widened to `size_t`. -/
def totalBytesOf (width height : Nat) : Nat := (width * height * 4) % 2 ^ 32

/-- Lines 167-181 of `evaluate`: the error of a generated buffer against the target buffer on a
canvas of `width x height` pixels. -/
def evaluateBuffers (targetPixels genePixels : PixelBuffer) (width height : Nat) : Int :=
  evaluateLoop targetPixels genePixels (totalBytesOf width height) (totalBytesOf width height) 0 0

/-! ### The score as the specification words it -/

/-- Contribution of pixel `p` in the specification's formula
`|R_t - R_g| + |G_t - G_g| + |B_t - B_g| + (A_t - A_g)^2`, on unbounded integers. -/
def specPixelError (t g : PixelBuffer) (p : Nat) : Int :=
  |byteAt t (4 * p) - byteAt g (4 * p)| + |byteAt t (4 * p + 1) - byteAt g (4 * p + 1)|
    + |byteAt t (4 * p + 2) - byteAt g (4 * p + 2)|
    + (byteAt t (4 * p + 3) - byteAt g (4 * p + 3)) ^ 2

/-- The specification's score: the sum of `specPixelError` over the first `n` pixels. -/
def specScore (t g : PixelBuffer) : Nat → Int
  | 0 => 0
  | n + 1 => specScore t g n + specPixelError t g n

/-! ## The type `float` (IEEE 754 binary32) -/

/-- A value of the type `float`: not-a-number, an infinity, or a finite rational.  The two
zeros are identified. -/
inductive Float32 where
  | nan
  | inf (negative : Bool)
  | finite (q : ℚ)
  deriving DecidableEq

namespace Float32

/-- The power `2^z` for an integer exponent. -/
def pow2 (z : Int) : ℚ :=
  if 0 ≤ z then ((2 ^ z.toNat : Nat) : ℚ) else 1 / ((2 ^ (-z).toNat : Nat) : ℚ)

/-- The loop of `ilog2`; the first argument is recursion fuel. -/
def ilog2Loop : Nat → Nat → Nat
  | 0, _ => 0
  | fuel + 1, m => if 2 ≤ m then ilog2Loop fuel (m / 2) + 1 else 0

/-- The position of the leading bit of `n ≥ 1`: the `k` with `2^k ≤ n < 2^(k+1)`. -/
def ilog2 (n : Nat) : Nat := ilog2Loop n n

/-- The exponent `e` with `2^e ≤ q < 2^(e+1)`, for `q > 0`. -/
def floorLog2 (q : ℚ) : Int :=
  let e0 : Int := (ilog2 q.num.natAbs : Int) - (ilog2 q.den : Int)
  if q < pow2 e0 then e0 - 1 else e0

/-- Rounding of `t ≥ 0` to the nearest integer, ties to the even one. -/
def roundHalfEven (t : ℚ) : Int :=
  let k := ⌊t⌋
  let f := t - (k : ℚ)
  if f < 1 / 2 then k
  else if 1 / 2 < f then k + 1
  else if k % 2 = 0 then k else k + 1

/-- Rounding of an exact result to binary32, to nearest with ties to even: 24 significant bits,
least exponent `-126` (subnormal numbers below it), overflow to an infinity. -/
def round (q : ℚ) : Float32 :=
  if q = 0 then finite 0
  else
    let a := |q|
    let e := max (floorLog2 a) (-126)
    let quantum := pow2 (e - 23)
    let r := (roundHalfEven (a / quantum) : ℚ) * quantum
    if pow2 128 ≤ r then inf (decide (q < 0))
    else finite (if q < 0 then -r else r)

/-- A `float` literal or constant: the decimal value rounded to binary32. -/
def lit (q : ℚ) : Float32 := round q

/-- Unary minus. -/
def neg : Float32 → Float32
  | nan => nan
  | inf s => inf (!s)
  | finite q => finite (-q)

/-- The operator `+` on `float`. -/
def add : Float32 → Float32 → Float32
  | nan, _ => nan
  | _, nan => nan
  | inf s, inf s1 => if s = s1 then inf s else nan
  | inf s, finite _ => inf s
  | finite _, inf s => inf s
  | finite a, finite b => round (a + b)

/-- The operator `-` on `float`. -/
def sub (x y : Float32) : Float32 := add x (neg y)

/-- The operator `*` on `float`. -/
def mul : Float32 → Float32 → Float32
  | nan, _ => nan
  | _, nan => nan
  | inf s, inf s1 => inf (xor s s1)
  | inf s, finite b => if b = 0 then nan else inf (xor s (decide (b < 0)))
  | finite a, inf s => if a = 0 then nan else inf (xor s (decide (a < 0)))
  | finite a, finite b => round (a * b)

/-- The operator `/` on `float`. -/
def div : Float32 → Float32 → Float32
  | nan, _ => nan
  | _, nan => nan
  | inf _, inf _ => nan
  | inf s, finite b => inf (xor s (decide (b < 0)))
  | finite _, inf _ => finite 0
  | finite a, finite b =>
    if b = 0 then (if a = 0 then nan else inf (decide (a < 0)))
    else round (a / b)

/-- The operator `<` on `float`: false when an operand is not a number. -/
def lt : Float32 → Float32 → Bool
  | nan, _ => false
  | _, nan => false
  | inf s, inf s1 => s && !s1
  | inf s, finite _ => s
  | finite _, inf s => !s
  | finite a, finite b => decide (a < b)

/-- The operator `<=` on `float`: false when an operand is not a number. -/
def le : Float32 → Float32 → Bool
  | nan, _ => false
  | _, nan => false
  | inf s, inf s1 => s || !s1
  | inf s, finite _ => s
  | finite _, inf s => !s
  | finite a, finite b => decide (a ≤ b)

/-- The conversion `(float)n` of an integer. -/
def ofInt (n : Int) : Float32 := round (n : ℚ)

/-- The conversion `(float)n` of an `unsigned`. -/
def ofNat (n : Nat) : Float32 := round (n : ℚ)

/-- The conversion `static_cast<int>(x)`: truncation toward zero.  For a value that does not
fit an `int` the conversion is undefined in C++; the result of the x86 conversion instruction,
`INT_MIN`, is used. -/
def toInt : Float32 → Int
  | nan => -2 ^ 31
  | inf _ => -2 ^ 31
  | finite q =>
    let n : Int := if 0 ≤ q then ⌊q⌋ else -⌊-q⌋
    if -2 ^ 31 ≤ n ∧ n < 2 ^ 31 then n else -2 ^ 31

/-- The value is a finite number lying between `lo` and `hi`. -/
def within (lo hi : ℚ) (x : Float32) : Prop := ∃ q, x = finite q ∧ lo ≤ q ∧ q ≤ hi

/-- The value is a finite number. -/
def isFinite : Float32 → Bool
  | finite _ => true
  | _ => false

/-- The value is not-a-number. -/
def isNaN : Float32 → Bool
  | nan => true
  | _ => false

end Float32

/-! ## Sprites (`using gene = sf::Sprite`) -/

/-- The type `sf::Vector2f`. -/
structure Vector2f where
  x : Float32
  y : Float32
  deriving DecidableEq

/-- The type `sf::Color`: four `uint8_t` channels. -/
structure Color where
  r : Fin 256
  g : Fin 256
  b : Fin 256
  a : Fin 256
  deriving DecidableEq

/-- The constant `sf::Color::White`, the colour of a freshly constructed sprite. -/
def Color.White : Color := ⟨255, 255, 255, 255⟩

/-- The state of an `sf::Sprite` that the program reads or writes: the members of
`sf::Transformable` and the tint.  As in `sf::Angle`, the rotation is held in radians. -/
structure gene where
  position : Vector2f
  rotation : Float32
  scale : Vector2f
  origin : Vector2f
  color : Color
  deriving DecidableEq

/-- The constant `sf::priv::pi = 3.141592654f`. -/
def pi : Float32 := Float32.lit (3141592654 / 1000000000)

/-- The constant `sf::priv::tau = pi * 2.f`. -/
def tau : Float32 := Float32.mul pi (Float32.lit 2)

/-- The function `sf::degrees`: the angle `angle * (pi / 180.f)` in radians. -/
def degrees (angle : Float32) : Float32 :=
  Float32.mul angle (Float32.div pi (Float32.lit 180))

/-- The method `sf::Angle::asDegrees`: `m_radians * (180.f / pi)`. -/
def asDegrees (radians : Float32) : Float32 :=
  Float32.mul radians (Float32.div (Float32.lit 180) pi)

/-- The function `sf::priv::positiveRemainder`:
`val = a - static_cast<float>(static_cast<int>(a / b)) * b`, then `val >= 0.f ? val : val + b`. -/
def positiveRemainder (a b : Float32) : Float32 :=
  let val := Float32.sub a
    (Float32.mul (Float32.ofInt (Float32.toInt (Float32.div a b))) b)
  if Float32.le (Float32.lit 0) val then val else Float32.add val b

/-- The method `sf::Angle::wrapUnsigned`: `positiveRemainder(m_radians, tau)`. -/
def wrapUnsigned (angle : Float32) : Float32 := positiveRemainder angle tau

/-- The constructor `sf::Sprite(texture)`: identity transform, white tint. -/
def gene.ofTexture : gene :=
  { position := ⟨.finite 0, .finite 0⟩, rotation := .finite 0, scale := ⟨.finite 1, .finite 1⟩,
    origin := ⟨.finite 0, .finite 0⟩, color := Color.White }

/-- The method `sf::Transformable::setPosition`. -/
def gene.setPosition (s : gene) (p : Vector2f) : gene := { s with position := p }

/-- The method `sf::Transformable::move`: `setPosition(m_position + offset)`. -/
def gene.move (s : gene) (offset : Vector2f) : gene :=
  s.setPosition ⟨Float32.add s.position.x offset.x, Float32.add s.position.y offset.y⟩

/-- The method `sf::Transformable::setRotation`: stores `angle.wrapUnsigned()`. -/
def gene.setRotation (s : gene) (angle : Float32) : gene :=
  { s with rotation := wrapUnsigned angle }

/-- The method `sf::Transformable::rotate`: `setRotation(m_rotation + angle)`. -/
def gene.rotate (s : gene) (angle : Float32) : gene :=
  s.setRotation (Float32.add s.rotation angle)

/-- The method `sf::Transformable::setScale`. -/
def gene.setScale (s : gene) (f : Vector2f) : gene := { s with scale := f }

/-- The method `sf::Transformable::setOrigin`. -/
def gene.setOrigin (s : gene) (o : Vector2f) : gene := { s with origin := o }

/-- The method `sf::Sprite::setColor`. -/
def gene.setColor (s : gene) (c : Color) : gene := { s with color := c }

/-! ## Mutation (`Clamp`, `ClampColor`, `mutate`, lines 98-157) -/

/-- The function `Clamp` (lines 98-104). -/
def Clamp (val min max : Float32) : Float32 :=
  if Float32.lt val min then min
  else if Float32.lt max val then max
  else val

/-- The function `ClampColor` (lines 106-112); the final branch is the cast `(uint8_t)val`. -/
def ClampColor (val : Int) : Fin 256 :=
  if val < 0 then 0
  else if val > 255 then 255
  else Fin.ofNat val.toNat

/-- The nine values `mutate` draws from the generator, in the order of the calls:
`Rand<float>(-0.05f, 0.05f)` twice, `Rand<float>(0.0f, 360.0f)` (in degrees),
`Rand<float>(-0.5f, 0.5f)` twice and `Rand<int>(-50, 50)` four times. -/
structure MutationDraws where
  ux : Float32
  uy : Float32
  angle : Float32
  scaleDeltax : Float32
  scaleDeltay : Float32
  dr : Int
  dg : Int
  db : Int
  da : Int

/-- The value lies between the two bounds of a `Rand<float>(lo, hi)` call. -/
def RandFloatRange (lo hi : ℚ) (x : Float32) : Prop :=
  Float32.le (Float32.lit lo) x = true ∧ Float32.le x (Float32.lit hi) = true

/-- The ranges the distributions of `mutate` draw from. -/
def MutationDraws.inRange (d : MutationDraws) : Prop :=
  RandFloatRange (-(1 / 20)) (1 / 20) d.ux ∧ RandFloatRange (-(1 / 20)) (1 / 20) d.uy
    ∧ RandFloatRange 0 360 d.angle
    ∧ RandFloatRange (-(1 / 2)) (1 / 2) d.scaleDeltax
    ∧ RandFloatRange (-(1 / 2)) (1 / 2) d.scaleDeltay
    ∧ (-50 ≤ d.dr ∧ d.dr ≤ 50) ∧ (-50 ≤ d.dg ∧ d.dg ≤ 50)
    ∧ (-50 ≤ d.db ∧ d.db ≤ 50) ∧ (-50 ≤ d.da ∧ d.da ≤ 50)

/-- The function `mutate` (lines 114-157), with the random draws passed in. -/
def mutate (s : gene) (canvasWidth canvasHeight : Float32) (d : MutationDraws) : gene :=
  -- move
  let moveX := Float32.mul canvasWidth d.ux
  let moveY := Float32.mul canvasHeight d.uy
  let s := s.move ⟨moveX, moveY⟩
  let pos := s.position
  let pos := { pos with x := Clamp pos.x (Float32.lit 0) canvasWidth }
  let pos := { pos with y := Clamp pos.y (Float32.lit 0) canvasHeight }
  let s := s.setPosition pos
  -- rotate
  let angle := degrees d.angle
  let s := s.rotate angle
  -- scale
  let currentScalex := s.scale.x
  let newScalex := Float32.add currentScalex d.scaleDeltax
  let newScalex := if Float32.lt newScalex (Float32.lit (1 / 10)) then Float32.lit (1 / 10)
    else newScalex
  let newScalex := if Float32.lt (Float32.lit 5) newScalex then Float32.lit 5 else newScalex
  let currentScaley := s.scale.y
  let newScaley := Float32.add currentScaley d.scaleDeltay
  let newScaley := if Float32.lt newScaley (Float32.lit (1 / 10)) then Float32.lit (1 / 10)
    else newScaley
  let newScaley := if Float32.lt (Float32.lit 5) newScaley then Float32.lit 5 else newScaley
  let s := s.setScale ⟨newScalex, newScaley⟩
  -- color
  let c := s.color
  let c := { c with r := ClampColor ((c.r.val : Int) + d.dr) }
  let c := { c with g := ClampColor ((c.g.val : Int) + d.dg) }
  let c := { c with b := ClampColor ((c.b.val : Int) + d.db) }
  let c := { c with a := ClampColor ((c.a.val : Int) + d.da) }
  let c := if c.a > 220 then { c with a := 220 } else c
  s.setColor c

/-- The clamp of the specification: the larger of `lo` and the smaller of `v` and `hi`, with
`std::min` and `std::max` on `float`. -/
def clampSpec (v lo hi : Float32) : Float32 :=
  let m := if Float32.lt hi v then hi else v
  if Float32.lt lo m then m else lo

/-! ## Candidates and the hill-climb loop (`main`, lines 226-236 and 272-285) -/

/-- The struct `Individual`. -/
structure Individual where
  dna : List gene
  error : Int
  deriving DecidableEq

/-- The renderer `fastRender` followed by `copyToImage`: the SFML rasteriser, an external
collaborator, taken as an arbitrary function from the drawn sprites to the pixels read back. -/
abbrev Renderer := List gene → PixelBuffer

/-- The function `evaluate` (lines 159-182). -/
def evaluate (render : Renderer) (dna : List gene) (targetPixels : PixelBuffer)
    (width height : Nat) : Int :=
  evaluateBuffers targetPixels (render dna) width height

/-- The upper bound handed to `Rand<int>(0, child.dna.size() - 1)`: the subtraction is done in
`size_t` and the result converted to `int`. -/
def geneIndexUpper (size : Nat) : Int := wrapInt32 (((size : Int) - 1) % 2 ^ 64)

/-- The values `Rand<int>(min, max)` can return; `std::uniform_int_distribution` requires
`min ≤ max`, and there is no value to return otherwise. -/
def RandIntRange (min max r : Int) : Prop := min ≤ r ∧ r ≤ max

instance (min max r : Int) : Decidable (RandIntRange min max r) := by
  unfold RandIntRange; infer_instance

/-- The element access `child.dna[geneIndex]`: the `int` index is converted to `size_t`; an
index outside the vector is undefined behaviour (`none`). -/
def vectorSlot (dna : List gene) (geneIndex : Int) : Option (Nat × gene) :=
  let idx := (geneIndex % 2 ^ 64).toNat
  match dna[idx]? with
  | some s => some (idx, s)
  | none => none

/-- Lines 274-279: clone the parent, mutate the selected sprite of the clone, evaluate it.  The
canvas size reaches `mutate` through the casts `(float)canvasWidth`, `(float)canvasHeight`. -/
def trial (render : Renderer) (targetPixels : PixelBuffer) (canvasWidth canvasHeight : Nat)
    (parent : Individual) (geneIndex : Int) (d : MutationDraws) : Option Individual :=
  match vectorSlot parent.dna geneIndex with
  | none => none
  | some (idx, s) =>
    let dna := parent.dna.set idx
      (mutate s (Float32.ofNat canvasWidth) (Float32.ofNat canvasHeight) d)
    some { dna := dna, error := evaluate render dna targetPixels canvasWidth canvasHeight }

/-- One iteration of the burst loop (lines 273-284): the new value of `parent`. -/
def step (render : Renderer) (targetPixels : PixelBuffer) (canvasWidth canvasHeight : Nat)
    (parent : Individual) (geneIndex : Int) (d : MutationDraws) : Option Individual :=
  match trial render targetPixels canvasWidth canvasHeight parent geneIndex d with
  | none => none
  | some child => if child.error < parent.error then some child else some parent

/-- Any number of iterations of the burst loop, one per element of `inputs` (the gene index
and the mutation draws of that iteration). -/
def burst (render : Renderer) (targetPixels : PixelBuffer) (canvasWidth canvasHeight : Nat) :
    Individual → List (Int × MutationDraws) → Option Individual
  | parent, [] => some parent
  | parent, (geneIndex, d) :: rest =>
    match step render targetPixels canvasWidth canvasHeight parent geneIndex d with
    | none => none
    | some parent1 => burst render targetPixels canvasWidth canvasHeight parent1 rest

/-- The indices of the sprites that an accepted trial has mutated in the course of a burst:
the index of each iteration whose trial replaced `parent`. -/
def mutatedSlots (render : Renderer) (targetPixels : PixelBuffer)
    (canvasWidth canvasHeight : Nat) : Individual → List (Int × MutationDraws) → List Nat
  | _, [] => []
  | parent, (geneIndex, d) :: rest =>
    match vectorSlot parent.dna geneIndex,
      trial render targetPixels canvasWidth canvasHeight parent geneIndex d with
    | some (idx, _), some child =>
      if child.error < parent.error then
        idx :: mutatedSlots render targetPixels canvasWidth canvasHeight child rest
      else mutatedSlots render targetPixels canvasWidth canvasHeight parent rest
    | _, _ => []

/-- The three values drawn for each sprite of the initial genome: `Rand<int>(0, canvasWidth)`,
`Rand<int>(0, canvasHeight)` and `Rand<float>(0, 360)` (in degrees). -/
structure InitDraws where
  posX : Int
  posY : Int
  angle : Float32

/-- The ranges the distributions of the initial construction draw from; the `unsigned` canvas
size is converted to `int` at the call. -/
def InitDraws.inRange (canvasWidth canvasHeight : Nat) (d : InitDraws) : Prop :=
  RandIntRange 0 (wrapInt32 canvasWidth) d.posX ∧ RandIntRange 0 (wrapInt32 canvasHeight) d.posY
    ∧ RandFloatRange 0 360 d.angle

/-- The body of the construction loop (lines 228-232): one sprite of the initial genome.
`texSize` is the size of the sprite texture (`getLocalBounds().size`). -/
def initialGene (canvasWidth canvasHeight : Nat) (texSize : Vector2f) (d : InitDraws) : gene :=
  let s := gene.ofTexture
  let s := s.setOrigin
    ⟨Float32.div texSize.x (Float32.lit 2), Float32.div texSize.y (Float32.lit 2)⟩
  let s := s.setPosition
    ⟨Float32.div (Float32.ofNat canvasWidth) (Float32.lit 2),
      Float32.div (Float32.ofNat canvasHeight) (Float32.lit 2)⟩
  let s := s.setPosition ⟨Float32.ofInt d.posX, Float32.ofInt d.posY⟩
  s.setRotation (degrees d.angle)

/-- The loop `for (int i = 0; i < config.dnaLength; i++)` (lines 227-235); the first argument is
recursion fuel, `draws i` the values drawn in iteration `i`. -/
def buildDna (dnaLength : Int) (canvasWidth canvasHeight : Nat) (texSize : Vector2f)
    (draws : Nat → InitDraws) : Nat → Int → List gene → List gene
  | 0, _, dna => dna
  | fuel + 1, i, dna =>
    if i < dnaLength then
      buildDna dnaLength canvasWidth canvasHeight texSize draws fuel (i + 1)
        (dna ++ [initialGene canvasWidth canvasHeight texSize (draws i.toNat)])
    else dna

/-- The genome of the initial `parent` (lines 226-235). -/
def initialDna (dnaLength : Int) (canvasWidth canvasHeight : Nat) (texSize : Vector2f)
    (draws : Nat → InitDraws) : List gene :=
  buildDna dnaLength canvasWidth canvasHeight texSize draws dnaLength.toNat 0 []

/-- The initial `parent` (lines 226-236). -/
def initialParent (render : Renderer) (targetPixels : PixelBuffer) (dnaLength : Int)
    (canvasWidth canvasHeight : Nat) (texSize : Vector2f) (draws : Nat → InitDraws) :
    Individual :=
  let dna := initialDna dnaLength canvasWidth canvasHeight texSize draws
  { dna := dna, error := evaluate render dna targetPixels canvasWidth canvasHeight }

/-! ## Command line (`Config`, `parseArguments`, lines 13-43) -/

/-- The struct `Config`. -/
structure Config where
  inputPath : String
  spritePath : String
  outputPath : String
  dnaLength : Int
  deriving DecidableEq

/-- The default member initialisers of `Config` (lines 14-17). -/
def Config.default : Config :=
  { inputPath := "./assets/target.png", spritePath := "./assets/sprite.png",
    outputPath := "output.png", dnaLength := 500 }

/-- The characters `std::isspace` accepts in the C locale; `std::stoi` skips them. -/
def isSpaceChar (c : Char) : Bool :=
  c.toNat = 32 || (9 ≤ c.toNat && c.toNat ≤ 13)

/-- The characters `0` to `9`. -/
def isDigitChar (c : Char) : Bool := 48 ≤ c.toNat && c.toNat ≤ 57

/-- The value of a decimal digit character. -/
def digitValue (c : Char) : Nat := c.toNat - 48

/-- The number a sequence of decimal digits denotes. -/
def digitsValue (ds : List Char) : Nat := ds.foldl (fun acc c => 10 * acc + digitValue c) 0

/-- The library function `std::stoi(str)` (base 10), on the characters of its argument: skip
leading white space, read an optional sign and the longest run of digits, ignore what follows.
It throws `std::invalid_argument` when there is no digit and `std::out_of_range` when the value
does not fit an `int`; both are `none` here. -/
def stoiChars (cs : List Char) : Option Int :=
  let cs := cs.dropWhile isSpaceChar
  let negative := cs.head? = some '-'
  let body := if cs.head? = some '-' ∨ cs.head? = some '+' then cs.tail else cs
  let ds := body.takeWhile isDigitChar
  if ds = [] then none
  else
    let v : Int := if negative then -(digitsValue ds : Int) else (digitsValue ds : Int)
    if -2 ^ 31 ≤ v ∧ v ≤ 2 ^ 31 - 1 then some v else none

/-- The library function `std::stoi` on a string. -/
def stoi (s : String) : Option Int := stoiChars s.toList

/-- How a call of `parseArguments` ends: it returns a `Config`, it prints the usage text and
calls `exit(0)`, or `std::stoi` throws and the exception leaves the function. -/
inductive ParseOutcome where
  | returned (config : Config)
  | exitedHelp
  | stoiThrew
  deriving DecidableEq

/-- The loop of `parseArguments` (lines 22-41) over the arguments from `argv[i]` on.  The test
`i + 1 < argc` is the split between a last argument and one that has a successor. -/
def parseLoop : List String → Config → ParseOutcome
  | [], config => .returned config
  | [arg], config =>
    if arg = "-h" ∨ arg = "--help" then .exitedHelp
    else parseLoop [] config
  | arg :: value :: rest, config =>
    if arg = "-i" ∨ arg = "--input" then parseLoop rest { config with inputPath := value }
    else if arg = "-o" ∨ arg = "--output" then
      parseLoop rest { config with outputPath := value }
    else if arg = "-s" ∨ arg = "--sprite" then
      parseLoop rest { config with spritePath := value }
    else if arg = "-d" ∨ arg = "--dna" then
      match stoi value with
      | some n => parseLoop rest { config with dnaLength := n }
      | none => .stoiThrew
    else if arg = "-h" ∨ arg = "--help" then .exitedHelp
    else parseLoop (value :: rest) config

/-- The function `parseArguments` (lines 20-43) on the argument vector `argv`, whose first
element is the program name. -/
def parseArguments (argv : List String) : ParseOutcome := parseLoop (argv.drop 1) Config.default

/-! ## The command line as the specification words it -/

/-- A decimal integer: an optional sign followed by one or more digits and nothing else. -/
def isDecimalChars : List Char → Bool
  | [] => false
  | c :: cs =>
    if c = '-' ∨ c = '+' then !cs.isEmpty && cs.all isDigitChar
    else (c :: cs).all isDigitChar

/-- The integer a decimal integer denotes. -/
def decimalValueChars : List Char → Int
  | [] => 0
  | c :: cs =>
    if c = '-' then -(digitsValue cs : Int)
    else if c = '+' then (digitsValue cs : Int)
    else (digitsValue (c :: cs) : Int)

/-- The string is a decimal integer. -/
def isDecimalInteger (s : String) : Bool := isDecimalChars s.toList

/-- The integer the string denotes. -/
def decimalValue (s : String) : Int := decimalValueChars s.toList

/-- The flags `-i`, `--input`, `-o`, `--output`, `-s`, `--sprite`, `-d` and `--dna`, which take a
value. -/
def isValueFlag (arg : String) : Bool :=
  arg = "-i" || arg = "--input" || arg = "-o" || arg = "--output" || arg = "-s"
    || arg = "--sprite" || arg = "-d" || arg = "--dna"

/-- The arguments a left-to-right scan hands to `-d` or `--dna` as its value. -/
def dnaValues : List String → List String
  | [] => []
  | [_] => []
  | arg :: value :: rest =>
    if arg = "-d" ∨ arg = "--dna" then value :: dnaValues rest
    else if isValueFlag arg then dnaValues rest
    else dnaValues (value :: rest)

/-- The left-to-right scan of the specification: a value-taking flag that has a following
argument sets its field to that argument and consumes it; every other argument changes
nothing and consumes nothing. -/
def scanSpec : List String → Config → Config
  | [], config => config
  | [_], config => config
  | arg :: value :: rest, config =>
    if arg = "-i" ∨ arg = "--input" then scanSpec rest { config with inputPath := value }
    else if arg = "-o" ∨ arg = "--output" then scanSpec rest { config with outputPath := value }
    else if arg = "-s" ∨ arg = "--sprite" then scanSpec rest { config with spritePath := value }
    else if arg = "-d" ∨ arg = "--dna" then
      scanSpec rest { config with dnaLength := decimalValue value }
    else scanSpec (value :: rest) config

/-! ## Predicates of the specification -/

/-- Position inside the canvas, both scale components in `[0.1, 5.0]` and every colour channel
in `[0, 255]`. -/
def gene.withinBounds (canvasWidth canvasHeight : Nat) (s : gene) : Prop :=
  s.position.x.within 0 (canvasWidth : ℚ) ∧ s.position.y.within 0 (canvasHeight : ℚ)
    ∧ s.scale.x.within (1 / 10) 5 ∧ s.scale.y.within (1 / 10) 5
    ∧ (s.color.r.val ≤ 255 ∧ s.color.g.val ≤ 255 ∧ s.color.b.val ≤ 255 ∧ s.color.a.val ≤ 255)

/-- The bounds of the specification: `withinBounds` and alpha at most `220`. -/
def gene.specBounds (canvasWidth canvasHeight : Nat) (s : gene) : Prop :=
  s.withinBounds canvasWidth canvasHeight ∧ s.color.a.val ≤ 220

/-- The bounds the program maintains for a candidate, given which indices have been mutated:
every sprite is `withinBounds`, a mutated one has alpha at most `220`, and one that has not
been mutated still has the tint `sf::Color::White` it was constructed with. -/
def Individual.slotBounds (canvasWidth canvasHeight : Nat) (mutated : Nat → Prop)
    (p : Individual) : Prop :=
  ∀ (i : Nat) (s : gene), p.dna[i]? = some s →
    s.withinBounds canvasWidth canvasHeight ∧ (mutated i → s.color.a.val ≤ 220)
      ∧ (¬ mutated i → s.color = Color.White)

/-! ## Concrete data used by the examples -/

/-- The buffer whose every byte is `b`. -/
def constBuffer (b : Fin 256) : PixelBuffer := fun _ => b

/-- The renderer that returns the buffer `g` whatever it is asked to draw. -/
def constRenderer (g : PixelBuffer) : Renderer := fun _ => g

/-- The buffer of solid black pixels `(0, 0, 0, 255)`. -/
def solidBlack : PixelBuffer := fun i => if i % 4 = 3 then 255 else 0

/-- The buffer `solidBlack` with the red channel of pixel `1` raised by `10`. -/
def blackPlusRed : PixelBuffer := fun i => if i = 4 then 10 else solidBlack i

/-- A renderer that returns `blackPlusRed` while the first sprite has alpha 255 and
`solidBlack` otherwise. -/
def alphaRenderer : Renderer
  | [] => solidBlack
  | s :: _ => if s.color.a = 255 then blackPlusRed else solidBlack

/-- A sprite at the origin with rotation 1 radian and alpha 230, otherwise as freshly
constructed. -/
def sampleGene : gene :=
  { position := ⟨.finite 0, .finite 0⟩, rotation := .finite 1, scale := ⟨.finite 1, .finite 1⟩,
    origin := ⟨.finite 0, .finite 0⟩, color := ⟨255, 255, 255, 230⟩ }

/-- The sprite `sampleGene` with its horizontal position replaced by not-a-number. -/
def nanGene : gene := { sampleGene with position := ⟨.nan, .finite 0⟩ }

/-- Draws for `mutate`: alpha delta `+50`, every other draw `0`. -/
def sampleDraws : MutationDraws :=
  { ux := .finite 0, uy := .finite 0, angle := .finite 0, scaleDeltax := .finite 0,
    scaleDeltay := .finite 0, dr := 0, dg := 0, db := 0, da := 50 }

/-- A candidate with the single sprite `sampleGene` and error `5`. -/
def sampleParent : Individual := { dna := [sampleGene], error := 5 }

/-- The trial built from `sampleParent` by mutating its sprite with `sampleDraws` on a 1 x 1
canvas, with error `0`. -/
def sampleChild : Individual :=
  { dna := [mutate sampleGene (Float32.ofNat 1) (Float32.ofNat 1) sampleDraws], error := 0 }

/-- Initial draws placing every sprite at the origin with rotation `0`. -/
def originDraws : Nat → InitDraws := fun _ => { posX := 0, posY := 0, angle := .finite 0 }

/-- The initial candidate of two sprites on a 2 x 1 canvas with a solid black target and the
renderer `alphaRenderer`. -/
def sampleInitial : Individual :=
  initialParent alphaRenderer solidBlack 2 2 1 ⟨.finite 20, .finite 20⟩ originDraws

/-- The candidate `sampleInitial` after its first sprite has been mutated with `sampleDraws`
and the trial accepted. -/
def sampleAccepted : Individual :=
  { dna := sampleInitial.dna.set 0
      (mutate (initialGene 2 1 ⟨.finite 20, .finite 20⟩ (originDraws 0)) (Float32.ofNat 2)
        (Float32.ofNat 1) sampleDraws),
    error := 0 }

/-! # Theorems -/

/-! ## Machine integers -/

theorem wrapInt64_eq_self {x : Int} (h1 : -2 ^ 63 ≤ x) (h2 : x < 2 ^ 63) : wrapInt64 x = x := by
  unfold wrapInt64
  omega

theorem absInt_eq_abs (x : Int) : absInt x = |x| := by
  unfold absInt
  split
  · rename_i h
    rw [abs_of_neg h]
  · rename_i h
    rw [abs_of_nonneg (not_lt.mp h)]

theorem byteAt_nonneg (p : PixelBuffer) (i : Nat) : 0 ≤ byteAt p i := by
  unfold byteAt
  omega

theorem byteAt_le (p : PixelBuffer) (i : Nat) : byteAt p i ≤ 255 := by
  unfold byteAt
  have := (p i).isLt
  omega

theorem byteAt_eq_iff (p q : PixelBuffer) (i : Nat) : byteAt p i = byteAt q i ↔ p i = q i := by
  unfold byteAt
  constructor
  · intro h
    exact Fin.ext (by exact_mod_cast h)
  · intro h
    rw [h]

/-! ## The evaluator computes the specification's sum -/

theorem abs_byte_diff_le (t g : PixelBuffer) (i : Nat) : |byteAt t i - byteAt g i| ≤ 255 := by
  have h1 := byteAt_nonneg t i
  have h2 := byteAt_le t i
  have h3 := byteAt_nonneg g i
  have h4 := byteAt_le g i
  exact abs_le.mpr ⟨by omega, by omega⟩

theorem sq_byte_diff_le (t g : PixelBuffer) (i : Nat) :
    (byteAt t i - byteAt g i) ^ 2 ≤ 65025 := by
  have h := abs_byte_diff_le t g i
  have h0 : 0 ≤ |byteAt t i - byteAt g i| := abs_nonneg _
  have e : (byteAt t i - byteAt g i) ^ 2 = |byteAt t i - byteAt g i| * |byteAt t i - byteAt g i| := by
    rw [abs_mul_abs_self, sq]
  rw [e]
  nlinarith

theorem specPixelError_nonneg (t g : PixelBuffer) (p : Nat) : 0 ≤ specPixelError t g p := by
  unfold specPixelError
  have h1 := abs_nonneg (byteAt t (4 * p) - byteAt g (4 * p))
  have h2 := abs_nonneg (byteAt t (4 * p + 1) - byteAt g (4 * p + 1))
  have h3 := abs_nonneg (byteAt t (4 * p + 2) - byteAt g (4 * p + 2))
  have h4 := sq_nonneg (byteAt t (4 * p + 3) - byteAt g (4 * p + 3))
  linarith

theorem specPixelError_le (t g : PixelBuffer) (p : Nat) : specPixelError t g p ≤ 65790 := by
  unfold specPixelError
  have h1 := abs_byte_diff_le t g (4 * p)
  have h2 := abs_byte_diff_le t g (4 * p + 1)
  have h3 := abs_byte_diff_le t g (4 * p + 2)
  have h4 := sq_byte_diff_le t g (4 * p + 3)
  linarith

theorem specScore_nonneg (t g : PixelBuffer) (n : Nat) : 0 ≤ specScore t g n := by
  induction n with
  | zero => simp [specScore]
  | succ n ih =>
    have := specPixelError_nonneg t g n
    simp only [specScore]
    linarith

theorem specScore_le (t g : PixelBuffer) (n : Nat) : specScore t g n ≤ 65790 * (n : Int) := by
  induction n with
  | zero => simp [specScore]
  | succ n ih =>
    have := specPixelError_le t g n
    simp only [specScore]
    push_cast
    linarith

theorem specScore_mono (t g : PixelBuffer) {k n : Nat} (h : k ≤ n) :
    specScore t g k ≤ specScore t g n := by
  induction n with
  | zero =>
    have : k = 0 := by omega
    subst this
    exact le_refl _
  | succ n ih =>
    rcases Nat.lt_or_ge k (n + 1) with h1 | h1
    · have := ih (by omega)
      have := specPixelError_nonneg t g n
      simp only [specScore]
      linarith
    · have : k = n + 1 := by omega
      subst this
      exact le_refl _

theorem specPixelError_le_specScore (t g : PixelBuffer) {p n : Nat} (h : p < n) :
    specPixelError t g p ≤ specScore t g n := by
  have h1 : specScore t g (p + 1) ≤ specScore t g n := specScore_mono t g h
  have h2 := specScore_nonneg t g p
  simp only [specScore] at h1
  linarith

/-- One iteration of the loop adds the specification's contribution of the pixel at byte
offset `4 * p`, and neither `long long` update leaves the 64-bit range. -/
theorem loop_body_eq (t g : PixelBuffer) (p : Nat) (acc : Int) (h0 : 0 ≤ acc)
    (h1 : acc ≤ 65790 * 2 ^ 30) :
    wrapInt64 (wrapInt64 (acc + (absInt (byteAt t (4 * p) - byteAt g (4 * p))
        + absInt (byteAt t (4 * p + 1) - byteAt g (4 * p + 1))
        + absInt (byteAt t (4 * p + 2) - byteAt g (4 * p + 2))))
      + absInt (byteAt t (4 * p + 3) - byteAt g (4 * p + 3))
        * absInt (byteAt t (4 * p + 3) - byteAt g (4 * p + 3)))
      = acc + specPixelError t g p := by
  simp only [absInt_eq_abs]
  have a1 := abs_byte_diff_le t g (4 * p)
  have a2 := abs_byte_diff_le t g (4 * p + 1)
  have a3 := abs_byte_diff_le t g (4 * p + 2)
  have a4 := sq_byte_diff_le t g (4 * p + 3)
  have b1 := abs_nonneg (byteAt t (4 * p) - byteAt g (4 * p))
  have b2 := abs_nonneg (byteAt t (4 * p + 1) - byteAt g (4 * p + 1))
  have b3 := abs_nonneg (byteAt t (4 * p + 2) - byteAt g (4 * p + 2))
  have b4 := sq_nonneg (byteAt t (4 * p + 3) - byteAt g (4 * p + 3))
  have e : |byteAt t (4 * p + 3) - byteAt g (4 * p + 3)| * |byteAt t (4 * p + 3) - byteAt g (4 * p + 3)|
      = (byteAt t (4 * p + 3) - byteAt g (4 * p + 3)) ^ 2 := by
    rw [abs_mul_abs_self, sq]
  rw [e]
  have w1 : wrapInt64 (acc + (|byteAt t (4 * p) - byteAt g (4 * p)|
      + |byteAt t (4 * p + 1) - byteAt g (4 * p + 1)|
      + |byteAt t (4 * p + 2) - byteAt g (4 * p + 2)|))
      = acc + (|byteAt t (4 * p) - byteAt g (4 * p)|
      + |byteAt t (4 * p + 1) - byteAt g (4 * p + 1)|
      + |byteAt t (4 * p + 2) - byteAt g (4 * p + 2)|) :=
    wrapInt64_eq_self (by linarith) (by linarith)
  rw [w1, wrapInt64_eq_self (by linarith) (by linarith)]
  unfold specPixelError
  ring

theorem evaluateLoop_eq_specScore (t g : PixelBuffer) (n : Nat) (hn : n ≤ 2 ^ 30) :
    ∀ (fuel k : Nat), k ≤ n → n - k ≤ fuel →
      evaluateLoop t g (4 * n) fuel (4 * k) (specScore t g k) = specScore t g n := by
  intro fuel
  induction fuel with
  | zero =>
    intro k hk hf
    have : k = n := by omega
    subst this
    simp [evaluateLoop]
  | succ fuel ih =>
    intro k hk hf
    rcases Nat.lt_or_ge k n with hlt | hge
    · have hcond : 4 * k < 4 * n := by omega
      have hacc0 := specScore_nonneg t g k
      have hacc1 : specScore t g k ≤ 65790 * 2 ^ 30 := by
        have := specScore_le t g k
        have hk2 : (k : Int) ≤ 2 ^ 30 := by exact_mod_cast le_trans hk hn
        linarith
      simp only [evaluateLoop, hcond, if_true]
      rw [loop_body_eq t g k _ hacc0 hacc1]
      have := ih (k + 1) (by omega) (by omega)
      simpa [specScore, Nat.mul_add] using this
    · have : k = n := by omega
      subst this
      simp [evaluateLoop]

theorem totalBytesOf_eq (width height : Nat) :
    totalBytesOf width height = 4 * ((width * height) % 2 ^ 30) := by
  unfold totalBytesOf
  generalize width * height = m
  omega

/-- The evaluator returns the specification's sum over the pixels its loop visits: the first
`(width * height) mod 2^30` ones. -/
theorem evaluateBuffers_eq_specScore (t g : PixelBuffer) (width height : Nat) :
    evaluateBuffers t g width height = specScore t g ((width * height) % 2 ^ 30) := by
  unfold evaluateBuffers
  rw [totalBytesOf_eq]
  have hn : (width * height) % 2 ^ 30 ≤ 2 ^ 30 := le_of_lt (Nat.mod_lt _ (by norm_num))
  have := evaluateLoop_eq_specScore t g _ hn (4 * ((width * height) % 2 ^ 30)) 0 (by omega)
    (by omega)
  simpa [specScore] using this

theorem evaluateBuffers_small (t g : PixelBuffer) (width height : Nat)
    (h : width * height < 2 ^ 30) :
    evaluateBuffers t g width height = specScore t g (width * height) := by
  rw [evaluateBuffers_eq_specScore, Nat.mod_eq_of_lt h]

theorem evaluateBuffers_huge (t g : PixelBuffer) : evaluateBuffers t g 32768 32768 = 0 := by
  rw [evaluateBuffers_eq_specScore]
  norm_num [specScore]

theorem specScore_eq_zero_iff (t g : PixelBuffer) (n : Nat) :
    specScore t g n = 0 ↔ ∀ p, p < n → specPixelError t g p = 0 := by
  induction n with
  | zero => simp [specScore]
  | succ n ih =>
    have h1 := specScore_nonneg t g n
    have h2 := specPixelError_nonneg t g n
    simp only [specScore]
    constructor
    · intro h p hp
      have hs : specScore t g n = 0 := by linarith
      have hp0 : specPixelError t g n = 0 := by linarith
      rcases Nat.lt_or_ge p n with hlt | hge
      · exact ih.mp hs p hlt
      · have : p = n := by omega
        rw [this]
        exact hp0
    · intro h
      have hs : specScore t g n = 0 := ih.mpr (fun p hp => h p (by omega))
      have hp0 := h n (by omega)
      linarith

theorem specPixelError_eq_zero_iff (t g : PixelBuffer) (p : Nat) :
    specPixelError t g p = 0 ↔
      g (4 * p) = t (4 * p) ∧ g (4 * p + 1) = t (4 * p + 1) ∧ g (4 * p + 2) = t (4 * p + 2)
        ∧ g (4 * p + 3) = t (4 * p + 3) := by
  have h1 := abs_nonneg (byteAt t (4 * p) - byteAt g (4 * p))
  have h2 := abs_nonneg (byteAt t (4 * p + 1) - byteAt g (4 * p + 1))
  have h3 := abs_nonneg (byteAt t (4 * p + 2) - byteAt g (4 * p + 2))
  have h4 := sq_nonneg (byteAt t (4 * p + 3) - byteAt g (4 * p + 3))
  unfold specPixelError
  constructor
  · intro h
    have e1 : |byteAt t (4 * p) - byteAt g (4 * p)| = 0 := by linarith
    have e2 : |byteAt t (4 * p + 1) - byteAt g (4 * p + 1)| = 0 := by linarith
    have e3 : |byteAt t (4 * p + 2) - byteAt g (4 * p + 2)| = 0 := by linarith
    have e4 : (byteAt t (4 * p + 3) - byteAt g (4 * p + 3)) ^ 2 = 0 := by linarith
    rw [abs_eq_zero, sub_eq_zero] at e1 e2 e3
    rw [sq_eq_zero_iff, sub_eq_zero] at e4
    exact ⟨((byteAt_eq_iff _ _ _).mp e1).symm, ((byteAt_eq_iff _ _ _).mp e2).symm,
      ((byteAt_eq_iff _ _ _).mp e3).symm, ((byteAt_eq_iff _ _ _).mp e4).symm⟩
  · rintro ⟨e1, e2, e3, e4⟩
    simp [byteAt, e1, e2, e3, e4]

theorem specScore_eq_zero_iff_bytes (t g : PixelBuffer) (n : Nat) :
    specScore t g n = 0 ↔ ∀ i, i < 4 * n → g i = t i := by
  rw [specScore_eq_zero_iff]
  constructor
  · intro h i hi
    have hp := (specPixelError_eq_zero_iff t g (i / 4)).mp (h (i / 4) (by omega))
    have hsplit : i = 4 * (i / 4) ∨ i = 4 * (i / 4) + 1 ∨ i = 4 * (i / 4) + 2
        ∨ i = 4 * (i / 4) + 3 := by omega
    rcases hsplit with e | e | e | e
    · rw [e]; exact hp.1
    · rw [e]; exact hp.2.1
    · rw [e]; exact hp.2.2.1
    · rw [e]; exact hp.2.2.2
  · intro h p hp
    exact (specPixelError_eq_zero_iff t g p).mpr
      ⟨h _ (by omega), h _ (by omega), h _ (by omega), h _ (by omega)⟩

/-- When every pixel but `p` contributes nothing, the sum is the contribution of `p`. -/
theorem specScore_single (t g : PixelBuffer) (p : Nat)
    (n : Nat) (h : ∀ q, q < n → q ≠ p → specPixelError t g q = 0) :
    specScore t g n = if p < n then specPixelError t g p else 0 := by
  induction n with
  | zero => simp [specScore]
  | succ n ih =>
    have ih1 := ih (fun q hq hne => h q (by omega) hne)
    simp only [specScore, ih1]
    rcases Nat.lt_trichotomy p n with hlt | heq | hgt
    · have hn : specPixelError t g n = 0 := h n (by omega) (by omega)
      simp [hlt, Nat.lt_succ_of_lt hlt, hn]
    · subst heq
      simp
    · have hn : specPixelError t g n = 0 := h n (by omega) (by omega)
      have h1 : ¬ p < n := by omega
      have h2 : ¬ p < n + 1 := by omega
      simp [h1, h2, hn]

theorem specScore_one_red_pixel (t g : PixelBuffer) (n p : Nat) (hp : p < n)
    (hsame : ∀ i, i < 4 * n → i ≠ 4 * p → g i = t i)
    (hred : |byteAt t (4 * p) - byteAt g (4 * p)| = 10) : specScore t g n = 10 := by
  rw [specScore_single t g p n, if_pos hp]
  · have e1 := hsame (4 * p + 1) (by omega) (by omega)
    have e2 := hsame (4 * p + 2) (by omega) (by omega)
    have e3 := hsame (4 * p + 3) (by omega) (by omega)
    unfold specPixelError
    rw [hred]
    simp [byteAt, e1, e2, e3]
  · intro q hq hne
    exact (specPixelError_eq_zero_iff t g q).mpr
      ⟨hsame _ (by omega) (by omega), hsame _ (by omega) (by omega),
        hsame _ (by omega) (by omega), hsame _ (by omega) (by omega)⟩

theorem specPixelError_extreme (p : Nat) :
    specPixelError (constBuffer 255) (constBuffer 0) p = 65790 := by
  simp only [specPixelError, byteAt, constBuffer]
  decide

theorem specScore_extreme (n : Nat) :
    specScore (constBuffer 255) (constBuffer 0) n = 65790 * (n : Int) := by
  induction n with
  | zero => simp [specScore]
  | succ n ih =>
    simp only [specScore, ih, specPixelError_extreme]
    push_cast
    ring

theorem evaluate_eq_evaluateBuffers (render : Renderer) (dna : List gene) (t : PixelBuffer)
    (width height : Nat) :
    evaluate render dna t width height = evaluateBuffers t (render dna) width height := rfl

/-! ## Claims about `evaluate` -/

/-- C1 (as stated, refuted): on a canvas of 32768 x 32768 pixels the byte count
`width * height * 4` is `2^32`, which the `unsigned` product reduces to `0`; the loop body never
runs and `evaluate` returns `0`, while the sum of the formula over all pixels of an all-`255`
target and an all-`0` render is not `0`. -/
theorem evaluate_ne_sum_on_huge_canvas :
    evaluate (constRenderer (constBuffer 0)) [] (constBuffer 255) 32768 32768
      ≠ specScore (constBuffer 255) (constBuffer 0) (32768 * 32768) := by
  rw [evaluate_eq_evaluateBuffers, evaluateBuffers_huge]
  have h := specPixelError_le_specScore (constBuffer 255) (constBuffer 0)
    (show 0 < 32768 * 32768 by norm_num)
  rw [specPixelError_extreme] at h
  intro e
  rw [← e] at h
  exact absurd h (by norm_num)

/-- C1 (amended): for every renderer, genome and target on a canvas with
`width * height < 2^30`, `evaluate` returns the sum over all `width * height` pixels of
`|R_t - R_g| + |G_t - G_g| + |B_t - B_g| + (A_t - A_g)^2` on the unwrapped channel values; and
if the two buffers agree on every byte except the red byte of one pixel, where they differ by
`10`, the score is `10`. -/
theorem evaluate_eq_sum_of_pixel_errors (render : Renderer) (dna : List gene) (t : PixelBuffer)
    (width height : Nat) (hsize : width * height < 2 ^ 30) :
    evaluate render dna t width height = specScore t (render dna) (width * height)
      ∧ ∀ p, p < width * height →
          (∀ i, i < 4 * (width * height) → i ≠ 4 * p → render dna i = t i) →
          |byteAt t (4 * p) - byteAt (render dna) (4 * p)| = 10 →
          evaluate render dna t width height = 10 := by
  have h := evaluateBuffers_small t (render dna) width height hsize
  refine ⟨h, ?_⟩
  intro p hp hsame hred
  rw [evaluate_eq_evaluateBuffers, h]
  exact specScore_one_red_pixel t (render dna) _ p hp hsame hred

/-- C1, instance: a 2 x 1 canvas, a solid black target and a render whose second pixel is
redder by `10`; the score is `10`. -/
theorem evaluate_eq_sum_of_pixel_errors_witness :
    2 * 1 < 2 ^ 30 ∧ evaluate (constRenderer blackPlusRed) [] solidBlack 2 1 = 10 :=
  ⟨by norm_num,
    (evaluate_eq_sum_of_pixel_errors (constRenderer blackPlusRed) [] solidBlack 2 1
      (by norm_num)).2 1 (by norm_num)
      (by
        intro i _ hne
        have hne4 : i ≠ 4 := by omega
        simp [constRenderer, blackPlusRed, hne4])
      (by decide)⟩

/-- C7 (as stated, refuted): on a canvas of 32768 x 32768 pixels `evaluate` returns `0` for an
all-`255` target and an all-`0` render, which differ in their first byte. -/
theorem evaluate_zero_on_differing_buffers :
    evaluate (constRenderer (constBuffer 0)) [] (constBuffer 255) 32768 32768 = 0
      ∧ 0 < 4 * (32768 * 32768)
      ∧ constRenderer (constBuffer 0) [] 0 ≠ constBuffer 255 0 := by
  refine ⟨?_, by norm_num, by decide⟩
  rw [evaluate_eq_evaluateBuffers, evaluateBuffers_huge]

/-- C7 (amended): for every renderer, genome and target on a canvas with
`width * height < 2^30`, the score is non-negative, and it is `0` exactly when the generated
buffer equals the target on each of the `4 * width * height` bytes. -/
theorem evaluate_nonneg_and_zero_iff (render : Renderer) (dna : List gene) (t : PixelBuffer)
    (width height : Nat) (hsize : width * height < 2 ^ 30) :
    0 ≤ evaluate render dna t width height
      ∧ (evaluate render dna t width height = 0
          ↔ ∀ i, i < 4 * (width * height) → render dna i = t i) := by
  rw [evaluate_eq_evaluateBuffers, evaluateBuffers_small t (render dna) width height hsize]
  exact ⟨specScore_nonneg _ _ _, specScore_eq_zero_iff_bytes _ _ _⟩

/-- C7, instance: a solid black `(0, 0, 0, 255)` target against a solid black render on a
2 x 2 canvas scores `0`. -/
theorem evaluate_nonneg_and_zero_iff_witness :
    2 * 2 < 2 ^ 30 ∧ evaluate (constRenderer solidBlack) [] solidBlack 2 2 = 0 :=
  ⟨by norm_num,
    (evaluate_nonneg_and_zero_iff (constRenderer solidBlack) [] solidBlack 2 2
      (by norm_num)).2.mpr (fun _ _ => rfl)⟩

/-- C10 (as stated, refuted): a canvas of 32768 x 32768 pixels has more than 32642 pixels, yet
no pair of buffers reaches the score `65790 * width * height` and none makes the score leave
the range of a signed 32-bit integer, because `evaluate` returns `0` for all of them. -/
theorem no_overflow_on_huge_canvas :
    32642 ≤ 32768 * 32768
      ∧ (¬ ∃ (render : Renderer) (dna : List gene) (t : PixelBuffer),
          evaluate render dna t 32768 32768 = 65790 * (32768 * 32768))
      ∧ ¬ ∃ (render : Renderer) (dna : List gene) (t : PixelBuffer),
          2 ^ 31 - 1 < evaluate render dna t 32768 32768 := by
  refine ⟨by norm_num, ?_, ?_⟩
  · rintro ⟨render, dna, t, h⟩
    rw [evaluate_eq_evaluateBuffers, evaluateBuffers_huge] at h
    norm_num at h
  · rintro ⟨render, dna, t, h⟩
    rw [evaluate_eq_evaluateBuffers, evaluateBuffers_huge] at h
    norm_num at h

/-- C10 (amended): each pixel contributes at most `65790`, and on every canvas the score is
between `0` and `65790 * width * height`; the two `long long` updates never leave the 64-bit
range on any canvas, so the returned value is the exact sum over the pixels visited and is
below `2^63`; when `width * height < 2^30` the bound `65790 * width * height` is attained (an
all-`255` target against an all-`0` render), so that a signed 32-bit accumulator would be
exceeded for some buffers whenever `32642 ≤ width * height < 2^30`, and for none when
`width * height ≤ 32641`. -/
theorem evaluate_bounds :
    (∀ (t g : PixelBuffer) (p : Nat), specPixelError t g p ≤ 3 * 255 + 255 ^ 2)
      ∧ (∀ (render : Renderer) (dna : List gene) (t : PixelBuffer) (width height : Nat),
          0 ≤ evaluate render dna t width height
            ∧ evaluate render dna t width height ≤ 65790 * ((width * height : Nat) : Int))
      ∧ (∀ (render : Renderer) (dna : List gene) (t : PixelBuffer) (width height : Nat),
          evaluate render dna t width height
              = specScore t (render dna) ((width * height) % 2 ^ 30)
            ∧ evaluate render dna t width height < 2 ^ 63)
      ∧ (∀ (width height : Nat), width * height < 2 ^ 30 →
          ∀ dna, evaluate (constRenderer (constBuffer 0)) dna (constBuffer 255) width height
            = 65790 * ((width * height : Nat) : Int))
      ∧ (∀ (width height : Nat), 32642 ≤ width * height → width * height < 2 ^ 30 →
          ∃ (render : Renderer) (t : PixelBuffer),
            ∀ dna, 2 ^ 31 - 1 < evaluate render dna t width height)
      ∧ (∀ (render : Renderer) (dna : List gene) (t : PixelBuffer) (width height : Nat),
          width * height ≤ 32641 → evaluate render dna t width height ≤ 2 ^ 31 - 1) := by
  have hub : ∀ (render : Renderer) (dna : List gene) (t : PixelBuffer) (width height : Nat),
      evaluate render dna t width height ≤ 65790 * ((width * height : Nat) : Int) := by
    intro render dna t width height
    rw [evaluate_eq_evaluateBuffers, evaluateBuffers_eq_specScore]
    have h1 := specScore_le t (render dna) ((width * height) % 2 ^ 30)
    have h2 : (((width * height) % 2 ^ 30 : Nat) : Int) ≤ ((width * height : Nat) : Int) := by
      exact_mod_cast Nat.mod_le _ _
    linarith
  have hmax : ∀ (width height : Nat), width * height < 2 ^ 30 →
      ∀ dna, evaluate (constRenderer (constBuffer 0)) dna (constBuffer 255) width height
        = 65790 * ((width * height : Nat) : Int) := by
    intro width height hsize dna
    rw [evaluate_eq_evaluateBuffers, evaluateBuffers_small _ _ _ _ hsize]
    exact specScore_extreme _
  refine ⟨?_, ?_, ?_, hmax, ?_, ?_⟩
  · intro t g p
    have := specPixelError_le t g p
    norm_num
    exact this
  · intro render dna t width height
    refine ⟨?_, hub render dna t width height⟩
    rw [evaluate_eq_evaluateBuffers, evaluateBuffers_eq_specScore]
    exact specScore_nonneg _ _ _
  · intro render dna t width height
    rw [evaluate_eq_evaluateBuffers, evaluateBuffers_eq_specScore]
    refine ⟨rfl, ?_⟩
    have h1 := specScore_le t (render dna) ((width * height) % 2 ^ 30)
    have h2 : (((width * height) % 2 ^ 30 : Nat) : Int) < 2 ^ 30 := by
      exact_mod_cast Nat.mod_lt (width * height) (by norm_num : 0 < 2 ^ 30)
    linarith
  · intro width height hlo hhi
    refine ⟨constRenderer (constBuffer 0), constBuffer 255, ?_⟩
    intro dna
    rw [hmax width height hhi dna]
    have : (32642 : Int) ≤ ((width * height : Nat) : Int) := by exact_mod_cast hlo
    linarith
  · intro render dna t width height hsmall
    have h := hub render dna t width height
    have : ((width * height : Nat) : Int) ≤ 32641 := by exact_mod_cast hsmall
    linarith

/-- C10, instance: on a 256 x 256 canvas the score of an all-`255` target against an all-`0`
render is `65790 * 65536`, more than a signed 32-bit integer holds. -/
theorem evaluate_bounds_witness :
    256 * 256 < 2 ^ 30
      ∧ evaluate (constRenderer (constBuffer 0)) [] (constBuffer 255) 256 256
          = 65790 * ((256 * 256 : Nat) : Int) :=
  ⟨by norm_num, evaluate_bounds.2.2.2.1 256 256 (by norm_num) []⟩

/-! ## The type `float` -/

namespace Float32

theorem round_ne_nan (q : ℚ) : round q ≠ nan := by
  unfold round
  by_cases h : q = 0
  · simp [h]
  · simp only [h, if_false]
    split_ifs <;> simp

theorem isFinite_iff (x : Float32) : x.isFinite = true ↔ ∃ q, x = finite q := by
  cases x <;> simp [isFinite]

theorem isNaN_eq_false_iff (x : Float32) : x.isNaN = false ↔ x ≠ nan := by
  cases x <;> simp [isNaN]

theorem lit_zero : lit 0 = finite 0 := by
  simp [lit, round]

theorem add_finite_ne_nan (a : ℚ) (y : Float32) (hy : y ≠ nan) : add (finite a) y ≠ nan := by
  cases y with
  | nan => exact absurd rfl hy
  | inf s => simp [add]
  | finite b => exact round_ne_nan _

theorem add_ne_nan_finite (x : Float32) (hx : x ≠ nan) (b : ℚ) : add x (finite b) ≠ nan := by
  cases x with
  | nan => exact absurd rfl hx
  | inf s => simp [add]
  | finite a => exact round_ne_nan _

theorem mul_finite_finite_ne_nan (a b : ℚ) : mul (finite a) (finite b) ≠ nan :=
  round_ne_nan _

theorem le_finite_finite (a b : ℚ) (x : Float32) (h1 : le (finite a) x = true)
    (h2 : le x (finite b) = true) : ∃ q, x = finite q ∧ a ≤ q ∧ q ≤ b := by
  cases x with
  | nan => simp [le] at h1
  | inf s =>
    simp only [le] at h1 h2
    cases s <;> simp_all
  | finite q =>
    simp only [le, decide_eq_true_eq] at h1 h2
    exact ⟨q, rfl, h1, h2⟩

theorem pow2_neg (k : Nat) : pow2 (-(k : Int)) = 1 / ((2 : ℚ) ^ k) := by
  unfold pow2
  rcases Nat.eq_zero_or_pos k with h | h
  · subst h
    simp
  · have hneg : ¬ (0 : Int) ≤ -(k : Int) := by omega
    rw [if_neg hneg]
    simp

theorem pow2_natCast (k : Nat) : pow2 (k : Int) = (2 : ℚ) ^ k := by
  unfold pow2
  simp

theorem ilog2Loop_spec :
    ∀ (fuel m : Nat), 1 ≤ m → m ≤ fuel →
      2 ^ ilog2Loop fuel m ≤ m ∧ m < 2 ^ (ilog2Loop fuel m + 1) := by
  intro fuel
  induction fuel with
  | zero =>
    intro m h1 h2
    omega
  | succ fuel ih =>
    intro m h1 h2
    unfold ilog2Loop
    split_ifs with h
    · obtain ⟨ha, hb⟩ := ih (m / 2) (by omega) (by omega)
      rw [pow_succ] at hb
      constructor
      · rw [pow_succ]
        omega
      · rw [pow_succ, pow_succ]
        omega
    · have : m = 1 := by omega
      subst this
      norm_num

theorem ilog2_spec (n : Nat) (h : 1 ≤ n) : 2 ^ ilog2 n ≤ n ∧ n < 2 ^ (ilog2 n + 1) :=
  ilog2Loop_spec n n h (le_refl n)

theorem roundHalfEven_natCast (m : Nat) : roundHalfEven (m : ℚ) = (m : Int) := by
  unfold roundHalfEven
  simp

theorem floorLog2_natCast (n : Nat) (h : 1 ≤ n) : floorLog2 (n : ℚ) = (ilog2 n : Int) := by
  unfold floorLog2
  have h1 : ilog2 1 = 0 := by decide
  simp only [Rat.num_natCast, Int.natAbs_ofNat, Rat.den_natCast, h1, Nat.cast_zero, sub_zero]
  rw [pow2_natCast]
  have hle : ((2 : ℚ) ^ ilog2 n) ≤ (n : ℚ) := by exact_mod_cast (ilog2_spec n h).1
  rw [if_neg (not_lt.mpr hle)]

/-- The conversion of a natural number up to `2^24` to `float` is exact. -/
theorem round_natCast (n : Nat) (h : n ≤ 2 ^ 24) : round (n : ℚ) = finite (n : ℚ) := by
  rcases Nat.eq_zero_or_pos n with h0 | hpos
  · subst h0
    simp [round]
  · have hspec := ilog2_spec n hpos
    have hL : ilog2 n ≤ 24 := by
      by_contra hc
      have h25 : 2 ^ 25 ≤ 2 ^ ilog2 n := Nat.pow_le_pow_right (by norm_num) (by omega)
      have : 2 ^ 25 ≤ 2 ^ 24 := le_trans (le_trans h25 hspec.1) h
      norm_num at this
    rcases Nat.lt_or_ge (ilog2 n) 24 with hlt | hge
    · have hq : (n : ℚ) ≠ 0 := by exact_mod_cast (Nat.pos_iff_ne_zero.mp hpos)
      have hq0 : ¬ (n : ℚ) < 0 := not_lt.mpr (Nat.cast_nonneg n)
      have habs : |(n : ℚ)| = (n : ℚ) := abs_of_nonneg (Nat.cast_nonneg n)
      have hmax : max ((ilog2 n : Int)) (-126) = (ilog2 n : Int) := max_eq_left (by omega)
      have hexp : ((ilog2 n : Int) - 23) = -((23 - ilog2 n : Nat) : Int) := by omega
      have hquot : (n : ℚ) / (1 / (2 : ℚ) ^ (23 - ilog2 n))
          = ((n * 2 ^ (23 - ilog2 n) : Nat) : ℚ) := by
        push_cast
        field_simp
      unfold round
      simp only [hq, if_false, habs, floorLog2_natCast n hpos, hmax, hexp, pow2_neg, hquot,
        roundHalfEven_natCast, hq0]
      have hr : (((n * 2 ^ (23 - ilog2 n) : Nat) : Int) : ℚ) * (1 / (2 : ℚ) ^ (23 - ilog2 n))
          = (n : ℚ) := by
        push_cast
        field_simp
      rw [hr]
      have hbig : ¬ pow2 128 ≤ (n : ℚ) := by
        have e : pow2 128 = (2 : ℚ) ^ 128 := pow2_natCast 128
        rw [e, not_le]
        have : (n : ℚ) ≤ 2 ^ 24 := by exact_mod_cast h
        have h2 : (2 : ℚ) ^ 24 < 2 ^ 128 := by norm_num
        linarith
      rw [if_neg hbig]
    · have hn : 2 ^ 24 ≤ n := le_trans (Nat.pow_le_pow_right (by norm_num) hge) hspec.1
      have : n = 2 ^ 24 := le_antisymm h hn
      subst this
      decide!

theorem ofNat_exact (n : Nat) (h : n ≤ 2 ^ 24) : ofNat n = finite (n : ℚ) :=
  round_natCast n h

theorem ofInt_exact (n : Int) (h0 : 0 ≤ n) (h : n ≤ 2 ^ 24) : ofInt n = finite (n : ℚ) := by
  obtain ⟨m, rfl⟩ := Int.eq_ofNat_of_zero_le h0
  have hm : m ≤ 2 ^ 24 := by exact_mod_cast h
  have := round_natCast m hm
  simpa [ofInt] using this

/-- Above `2^24` the conversion of an integer to `float` need not be exact. -/
theorem ofInt_inexact : ofInt 16777219 = finite 16777220 := by decide!

end Float32

namespace Float32

theorem pow2_eq_zpow (z : Int) : pow2 z = (2 : ℚ) ^ z := by
  unfold pow2
  split_ifs with h
  · obtain ⟨n, rfl⟩ := Int.eq_ofNat_of_zero_le h
    simp
  · have hn : 0 ≤ -z := by omega
    obtain ⟨n, hn2⟩ := Int.eq_ofNat_of_zero_le hn
    have hz : z = -(n : Int) := by omega
    rw [hz]
    simp

theorem pow2_pos (z : Int) : 0 < pow2 z := by
  rw [pow2_eq_zpow]
  exact zpow_pos (by norm_num) z

theorem pow2_mono {z1 z2 : Int} (h : z1 ≤ z2) : pow2 z1 ≤ pow2 z2 := by
  rw [pow2_eq_zpow, pow2_eq_zpow]
  exact zpow_le_zpow_right₀ (by norm_num) h

/-- The exponent computed by `floorLog2` does not exceed the argument. -/
theorem pow2_floorLog2_le (a : ℚ) (ha : 0 < a) : pow2 (floorLog2 a) ≤ a := by
  unfold floorLog2
  simp only
  split_ifs with h
  · have hnum : 0 < a.num := Rat.num_pos.mpr ha
    have hn1 : 1 ≤ a.num.natAbs := by omega
    have hd1 : 1 ≤ a.den := a.den_pos
    have hn := (ilog2_spec a.num.natAbs hn1).1
    have hd := (ilog2_spec a.den hd1).2
    have hnq : ((2 : ℚ) ^ ilog2 a.num.natAbs) ≤ (a.num.natAbs : ℚ) := by exact_mod_cast hn
    have hdq : (a.den : ℚ) < (2 : ℚ) ^ (ilog2 a.den + 1) := by exact_mod_cast hd
    have hnum2 : (a.num.natAbs : ℚ) = (a.num : ℚ) := by
      rw [← Int.cast_natCast, Int.natAbs_of_nonneg (le_of_lt hnum)]
    have hdpos : (0 : ℚ) < (a.den : ℚ) := by exact_mod_cast a.den_pos
    have haeq : (a.num : ℚ) / (a.den : ℚ) = a := Rat.num_div_den a
    rw [pow2_eq_zpow]
    have e : (2 : ℚ) ^ ((ilog2 a.num.natAbs : Int) - (ilog2 a.den : Int) - 1)
        = (2 : ℚ) ^ ilog2 a.num.natAbs / (2 : ℚ) ^ (ilog2 a.den + 1) := by
      have h2 : ((ilog2 a.num.natAbs : Int) - (ilog2 a.den : Int) - 1)
          = (ilog2 a.num.natAbs : Int) - ((ilog2 a.den + 1 : Nat) : Int) := by
        push_cast
        ring
      rw [h2, zpow_sub₀ (by norm_num), zpow_natCast, zpow_natCast]
    rw [e]
    have h3 : (2 : ℚ) ^ ilog2 a.num.natAbs * (a.den : ℚ)
        ≤ (a.num : ℚ) * (2 : ℚ) ^ (ilog2 a.den + 1) := by
      rw [← hnum2]
      have hp : (0 : ℚ) ≤ (2 : ℚ) ^ ilog2 a.num.natAbs := by positivity
      have hq : (0 : ℚ) ≤ (a.num.natAbs : ℚ) := Nat.cast_nonneg _
      nlinarith
    have h4 : (2 : ℚ) ^ ilog2 a.num.natAbs / (2 : ℚ) ^ (ilog2 a.den + 1)
        ≤ (a.num : ℚ) / (a.den : ℚ) := by
      rw [div_le_div_iff₀ (by positivity) hdpos]
      exact h3
    rw [haeq] at h4
    exact h4
  · exact not_lt.mp h

theorem roundHalfEven_le (t : ℚ) : (roundHalfEven t : ℚ) ≤ t + 1 := by
  unfold roundHalfEven
  have h := Int.floor_le t
  simp only
  split_ifs <;> push_cast <;> linarith

/-- Rounding a value of magnitude at most `2^126` does not overflow. -/
theorem round_isFinite (q : ℚ) (h : |q| ≤ 2 ^ 126) : ∃ r, round q = finite r := by
  unfold round
  by_cases h0 : q = 0
  · exact ⟨0, by simp [h0]⟩
  · simp only [h0, if_false]
    have ha : 0 < |q| := abs_pos.mpr h0
    have hquant : pow2 (max (floorLog2 |q|) (-126) - 23) ≤ 2 ^ 126 := by
      rcases le_total (floorLog2 |q|) (-126) with hc | hc
      · rw [max_eq_right hc]
        have : pow2 (-126 - 23) ≤ 1 := by
          rw [pow2_eq_zpow]
          exact zpow_le_one_of_nonpos₀ (by norm_num) (by norm_num)
        have h1 : (1 : ℚ) ≤ 2 ^ 126 := by norm_num
        linarith
      · rw [max_eq_left hc]
        have h1 : pow2 (floorLog2 |q| - 23) ≤ pow2 (floorLog2 |q|) := pow2_mono (by omega)
        have h2 := pow2_floorLog2_le |q| ha
        linarith
    have hqpos := pow2_pos (max (floorLog2 |q|) (-126) - 23)
    have hr : (roundHalfEven (|q| / pow2 (max (floorLog2 |q|) (-126) - 23)) : ℚ)
        * pow2 (max (floorLog2 |q|) (-126) - 23) ≤ 2 ^ 127 := by
      have h1 := roundHalfEven_le (|q| / pow2 (max (floorLog2 |q|) (-126) - 23))
      have h2 : (roundHalfEven (|q| / pow2 (max (floorLog2 |q|) (-126) - 23)) : ℚ)
          * pow2 (max (floorLog2 |q|) (-126) - 23)
          ≤ (|q| / pow2 (max (floorLog2 |q|) (-126) - 23) + 1)
            * pow2 (max (floorLog2 |q|) (-126) - 23) :=
        mul_le_mul_of_nonneg_right h1 (le_of_lt hqpos)
      have h3 : (|q| / pow2 (max (floorLog2 |q|) (-126) - 23) + 1)
            * pow2 (max (floorLog2 |q|) (-126) - 23)
          = |q| + pow2 (max (floorLog2 |q|) (-126) - 23) := by
        field_simp
      rw [h3] at h2
      have h4 : (2 : ℚ) ^ 126 + 2 ^ 126 = 2 ^ 127 := by norm_num
      linarith
    have hbig : ¬ pow2 128 ≤ (roundHalfEven (|q| / pow2 (max (floorLog2 |q|) (-126) - 23)) : ℚ)
        * pow2 (max (floorLog2 |q|) (-126) - 23) := by
      have e : pow2 128 = (2 : ℚ) ^ (128 : ℕ) := pow2_natCast 128
      rw [e, not_le]
      have h5 : (2 : ℚ) ^ 127 < 2 ^ 128 := by norm_num
      linarith
    rw [if_neg hbig]
    exact ⟨_, rfl⟩

end Float32

/-! ## Claims about `mutate` -/

theorem Clamp_within (v : Float32) (lo hi : ℚ) (hv : v ≠ .nan) (h : lo ≤ hi) :
    (Clamp v (.finite lo) (.finite hi)).within lo hi := by
  unfold Clamp
  cases v with
  | nan => exact absurd rfl hv
  | inf s =>
    cases s
    · simp only [Float32.lt, Bool.false_eq_true, if_false, Bool.not_false, if_true]
      exact ⟨hi, rfl, h, le_refl _⟩
    · simp only [Float32.lt, if_true]
      exact ⟨lo, rfl, le_refl _, h⟩
  | finite q =>
    simp only [Float32.lt, decide_eq_true_eq]
    split_ifs with h1 h2
    · exact ⟨lo, rfl, le_refl _, h⟩
    · exact ⟨hi, rfl, h, le_refl _⟩
    · exact ⟨q, rfl, not_lt.mp h1, not_lt.mp h2⟩

theorem Clamp_eq_clampSpec (v : Float32) (lo hi : ℚ) (hv : v ≠ .nan) (h : lo ≤ hi) :
    Clamp v (.finite lo) (.finite hi) = clampSpec v (.finite lo) (.finite hi) := by
  unfold Clamp clampSpec
  cases v with
  | nan => exact absurd rfl hv
  | inf s =>
    cases s
    · simp only [Float32.lt, Bool.false_eq_true, if_false, Bool.not_false, if_true,
        decide_eq_true_eq]
      split_ifs with h1
      · rfl
      · have : lo = hi := le_antisymm h (not_lt.mp h1)
        rw [this]
    · simp [Float32.lt]
  | finite q =>
    by_cases h1 : q < lo
    · have h2 : ¬ hi < q := by
        intro hc
        linarith
      have h3 : ¬ lo < q := by
        intro hc
        linarith
      simp [Float32.lt, h1, h2, h3]
    · by_cases h2 : hi < q
      · rcases lt_or_eq_of_le h with h3 | h3
        · simp [Float32.lt, h1, h2, h3]
        · subst h3
          simp [Float32.lt, h1, h2]
      · rcases lt_or_eq_of_le (not_lt.mp h1) with h3 | h3
        · simp [Float32.lt, h1, h2, h3]
        · subst h3
          simp [Float32.lt, h2]

/-- The two successive tests on the new scale are the function `Clamp`. -/
theorem scale_chain_eq_Clamp (v lo hi : Float32) (h : Float32.lt hi lo = false) :
    (if Float32.lt hi (if Float32.lt v lo then lo else v) then hi
      else (if Float32.lt v lo then lo else v)) = Clamp v lo hi := by
  unfold Clamp
  split_ifs with h1 h2 <;> simp_all

theorem lit_tenth : Float32.lit (1 / 10) = .finite (13421773 / 134217728) := by decide!

theorem lit_five : Float32.lit 5 = .finite 5 := by decide!

theorem RandFloatRange_finite (lo hi : ℚ) (x : Float32)
    (hlo : (Float32.lit lo).isFinite = true) (hhi : (Float32.lit hi).isFinite = true)
    (h : RandFloatRange lo hi x) : ∃ q, x = .finite q := by
  obtain ⟨a, ha⟩ := (Float32.isFinite_iff _).mp hlo
  obtain ⟨b, hb⟩ := (Float32.isFinite_iff _).mp hhi
  unfold RandFloatRange at h
  rw [ha, hb] at h
  obtain ⟨q, hq, _, _⟩ := Float32.le_finite_finite a b x h.1 h.2
  exact ⟨q, hq⟩

theorem lit_twentieth : Float32.lit (1 / 20) = .finite (13421773 / 268435456) := by decide!

theorem lit_neg_twentieth : Float32.lit (-(1 / 20)) = .finite (-13421773 / 268435456) := by
  decide!

theorem RandFloatRange_twentieth (x : Float32) (h : RandFloatRange (-(1 / 20)) (1 / 20) x) :
    ∃ q, x = .finite q ∧ |q| ≤ 1 / 16 := by
  unfold RandFloatRange at h
  rw [lit_twentieth, lit_neg_twentieth] at h
  obtain ⟨q, hq, h1, h2⟩ := Float32.le_finite_finite _ _ x h.1 h.2
  refine ⟨q, hq, abs_le.mpr ⟨?_, ?_⟩⟩
  · have : (-(1 / 16) : ℚ) ≤ -13421773 / 268435456 := by norm_num
    linarith
  · have : (13421773 / 268435456 : ℚ) ≤ 1 / 16 := by norm_num
    linarith

theorem MutationDraws.finite_of_inRange (d : MutationDraws) (h : d.inRange) :
    (∃ q, d.ux = .finite q ∧ |q| ≤ 1 / 16) ∧ (∃ q, d.uy = .finite q ∧ |q| ≤ 1 / 16)
      ∧ (∃ q, d.scaleDeltax = .finite q) ∧ (∃ q, d.scaleDeltay = .finite q) := by
  obtain ⟨h1, h2, _, h4, h5, _⟩ := h
  exact ⟨RandFloatRange_twentieth _ h1, RandFloatRange_twentieth _ h2,
    RandFloatRange_finite _ _ _ (by decide!) (by decide!) h4,
    RandFloatRange_finite _ _ _ (by decide!) (by decide!) h5⟩

theorem ClampColor_val (v : Int) : ((ClampColor v).val : Int) = max 0 (min v 255) := by
  unfold ClampColor
  split_ifs with h1 h2
  · have : min v 255 = v := min_eq_left (by omega)
    rw [this, max_eq_left (by omega)]
    rfl
  · rw [min_eq_right (by omega), max_eq_right (by norm_num)]
    rfl
  · rw [min_eq_left (by omega), max_eq_right (by omega)]
    have hlt : v.toNat < 256 := by omega
    have : (Fin.ofNat v.toNat : Fin 256).val = v.toNat := by
      show v.toNat % 256 = v.toNat
      exact Nat.mod_eq_of_lt hlt
    rw [this]
    omega

theorem mutate_position (s : gene) (cw ch : Float32) (d : MutationDraws) :
    (mutate s cw ch d).position
      = ⟨Clamp (Float32.add s.position.x (Float32.mul cw d.ux)) (Float32.lit 0) cw,
          Clamp (Float32.add s.position.y (Float32.mul ch d.uy)) (Float32.lit 0) ch⟩ := rfl

theorem mutate_rotation_eq (s : gene) (cw ch : Float32) (d : MutationDraws) :
    (mutate s cw ch d).rotation = wrapUnsigned (Float32.add s.rotation (degrees d.angle)) := rfl

theorem mutate_origin (s : gene) (cw ch : Float32) (d : MutationDraws) :
    (mutate s cw ch d).origin = s.origin := rfl

theorem mutate_scale_x (s : gene) (cw ch : Float32) (d : MutationDraws) :
    (mutate s cw ch d).scale.x
      = Clamp (Float32.add s.scale.x d.scaleDeltax) (Float32.lit (1 / 10)) (Float32.lit 5) :=
  scale_chain_eq_Clamp _ _ _ (by decide!)

theorem mutate_scale_y (s : gene) (cw ch : Float32) (d : MutationDraws) :
    (mutate s cw ch d).scale.y
      = Clamp (Float32.add s.scale.y d.scaleDeltay) (Float32.lit (1 / 10)) (Float32.lit 5) :=
  scale_chain_eq_Clamp _ _ _ (by decide!)

theorem mutate_color (s : gene) (cw ch : Float32) (d : MutationDraws) :
    (mutate s cw ch d).color.r = ClampColor ((s.color.r.val : Int) + d.dr)
      ∧ (mutate s cw ch d).color.g = ClampColor ((s.color.g.val : Int) + d.dg)
      ∧ (mutate s cw ch d).color.b = ClampColor ((s.color.b.val : Int) + d.db)
      ∧ (mutate s cw ch d).color.a
          = if ClampColor ((s.color.a.val : Int) + d.da) > 220 then 220
            else ClampColor ((s.color.a.val : Int) + d.da) := by
  simp only [mutate, gene.setColor, gene.setScale, gene.rotate, gene.setRotation,
    gene.setPosition, gene.move]
  split_ifs <;> simp_all

theorem mutate_alpha_val (s : gene) (cw ch : Float32) (d : MutationDraws) :
    (((mutate s cw ch d).color.a).val : Int)
      = min 220 (max 0 (min ((s.color.a.val : Int) + d.da) 255)) := by
  rw [(mutate_color s cw ch d).2.2.2, ← ClampColor_val]
  split_ifs with h
  · have h1 : (220 : Fin 256).val < (ClampColor ((s.color.a.val : Int) + d.da)).val := h
    have h2 : ((220 : Fin 256).val : Int) = 220 := rfl
    rw [h2, min_eq_left]
    have h3 : (220 : Fin 256).val = 220 := rfl
    omega
  · have h1 : ¬ (220 : Fin 256).val < (ClampColor ((s.color.a.val : Int) + d.da)).val := h
    have h3 : (220 : Fin 256).val = 220 := rfl
    rw [min_eq_right]
    omega

theorem mutate_alpha_le (s : gene) (cw ch : Float32) (d : MutationDraws) :
    ((mutate s cw ch d).color.a).val ≤ 220 := by
  have ha := mutate_alpha_val s cw ch d
  have := min_le_left (220 : Int) (max 0 (min ((s.color.a.val : Int) + d.da) 255))
  rw [← ha] at this
  exact_mod_cast this

/-- The sum a position is clamped from is a number when the old position is a number, the
canvas size is a finite `float` and the draw is in its range: the product does not overflow. -/
theorem position_sum_ne_nan (p : Float32) (w : ℚ) (u : Float32) (hp : p.isNaN = false)
    (hw : |w| ≤ 2 ^ 128) (hu : ∃ q, u = .finite q ∧ |q| ≤ 1 / 16) :
    Float32.add p (Float32.mul (.finite w) u) ≠ .nan := by
  obtain ⟨q, rfl, hq⟩ := hu
  have hprod : |w * q| ≤ 2 ^ 126 := by
    rw [abs_mul]
    have h1 : |w| * |q| ≤ 2 ^ 128 * (1 / 16) :=
      mul_le_mul hw hq (abs_nonneg q) (by norm_num)
    have h2 : (2 : ℚ) ^ 128 * (1 / 16) ≤ 2 ^ 126 := by norm_num
    linarith
  obtain ⟨r, hr⟩ := Float32.round_isFinite (w * q) hprod
  have e : Float32.mul (.finite w) (.finite q) = .finite r := hr
  rw [e]
  exact Float32.add_ne_nan_finite p ((Float32.isNaN_eq_false_iff p).mp hp) r

theorem scale_sum_ne_nan (c : Float32) (dl : Float32) (hc : c.isNaN = false)
    (hd : ∃ q, dl = .finite q) : Float32.add c dl ≠ .nan := by
  obtain ⟨q, rfl⟩ := hd
  exact Float32.add_ne_nan_finite c ((Float32.isNaN_eq_false_iff c).mp hc) q

theorem scale_within (v : Float32) (hv : v ≠ .nan) :
    (Clamp v (Float32.lit (1 / 10)) (Float32.lit 5)).within (1 / 10) 5 := by
  rw [lit_tenth, lit_five]
  obtain ⟨q, hq, h1, h2⟩ := Clamp_within v (13421773 / 134217728) 5 hv (by norm_num)
  exact ⟨q, hq, le_trans (by norm_num) h1, h2⟩

theorem sampleDraws_inRange : sampleDraws.inRange := by
  unfold MutationDraws.inRange RandFloatRange
  decide!

/-- C4 (as stated, refuted): a sprite whose horizontal position is not-a-number, mutated on a
100 x 50 canvas with draws in their ranges, still has a horizontal position that is
not-a-number, which is not inside the canvas: both comparisons of `Clamp` are false. -/
theorem mutate_keeps_nan_position :
    (0 : ℚ) ≤ 100 ∧ (0 : ℚ) ≤ 50 ∧ sampleDraws.inRange
      ∧ (mutate nanGene (.finite 100) (.finite 50) sampleDraws).position.x = .nan
      ∧ ¬ (mutate nanGene (.finite 100) (.finite 50) sampleDraws).position.x.within 0 100 := by
  have h : (mutate nanGene (.finite 100) (.finite 50) sampleDraws).position.x = .nan := by
    decide!
  refine ⟨by norm_num, by norm_num, sampleDraws_inRange, h, ?_⟩
  rw [h]
  rintro ⟨q, hq, _⟩
  exact absurd hq (by simp)

/-- C4 (amended): for every sprite whose position and scale components are not NaN, every
finite canvas size with `canvasWidth ≥ 0` and `canvasHeight ≥ 0` (a finite `float` is below
`2^128`) and every draw in the stated ranges, `mutate` (in `float` arithmetic, every operation
rounded) sets the position to
`(clamp(x + canvasWidth * u_x, 0, canvasWidth), clamp(y + canvasHeight * u_y, 0, canvasHeight))`,
each scale component to `clamp(old + d, 0.1f, 5.0f)`, each of R, G, B to `clamp(old + k, 0, 255)`
and alpha to `min(220, clamp(old + k, 0, 255))`; hence the position is inside the canvas, the
scale is in `[0.1, 5.0]` and alpha is at most `220`. -/
theorem mutate_clamps (s : gene) (w h : ℚ) (d : MutationDraws) (hw : 0 ≤ w) (hh : 0 ≤ h)
    (hwmax : w ≤ 2 ^ 128) (hhmax : h ≤ 2 ^ 128)
    (hpx : s.position.x.isNaN = false) (hpy : s.position.y.isNaN = false)
    (hsx : s.scale.x.isNaN = false) (hsy : s.scale.y.isNaN = false) (hd : d.inRange) :
    ((mutate s (.finite w) (.finite h) d).position.x
        = clampSpec (Float32.add s.position.x (Float32.mul (.finite w) d.ux)) (.finite 0)
            (.finite w)
      ∧ (mutate s (.finite w) (.finite h) d).position.y
        = clampSpec (Float32.add s.position.y (Float32.mul (.finite h) d.uy)) (.finite 0)
            (.finite h))
    ∧ ((mutate s (.finite w) (.finite h) d).scale.x
        = clampSpec (Float32.add s.scale.x d.scaleDeltax) (Float32.lit (1 / 10)) (Float32.lit 5)
      ∧ (mutate s (.finite w) (.finite h) d).scale.y
        = clampSpec (Float32.add s.scale.y d.scaleDeltay) (Float32.lit (1 / 10))
            (Float32.lit 5))
    ∧ ((((mutate s (.finite w) (.finite h) d).color.r).val : Int)
        = max 0 (min ((s.color.r.val : Int) + d.dr) 255)
      ∧ (((mutate s (.finite w) (.finite h) d).color.g).val : Int)
        = max 0 (min ((s.color.g.val : Int) + d.dg) 255)
      ∧ (((mutate s (.finite w) (.finite h) d).color.b).val : Int)
        = max 0 (min ((s.color.b.val : Int) + d.db) 255)
      ∧ (((mutate s (.finite w) (.finite h) d).color.a).val : Int)
        = min 220 (max 0 (min ((s.color.a.val : Int) + d.da) 255)))
    ∧ ((mutate s (.finite w) (.finite h) d).position.x.within 0 w
      ∧ (mutate s (.finite w) (.finite h) d).position.y.within 0 h
      ∧ (mutate s (.finite w) (.finite h) d).scale.x.within (1 / 10) 5
      ∧ (mutate s (.finite w) (.finite h) d).scale.y.within (1 / 10) 5
      ∧ ((mutate s (.finite w) (.finite h) d).color.a).val ≤ 220) := by
  obtain ⟨hux, huy, hdx, hdy⟩ := d.finite_of_inRange hd
  have hp := mutate_position s (.finite w) (.finite h) d
  have nx := position_sum_ne_nan s.position.x w d.ux hpx (by rw [abs_of_nonneg hw]; exact hwmax)
    hux
  have ny := position_sum_ne_nan s.position.y h d.uy hpy (by rw [abs_of_nonneg hh]; exact hhmax)
    huy
  have sx := scale_sum_ne_nan s.scale.x d.scaleDeltax hsx hdx
  have sy := scale_sum_ne_nan s.scale.y d.scaleDeltay hsy hdy
  have hx : (mutate s (.finite w) (.finite h) d).position.x
      = Clamp (Float32.add s.position.x (Float32.mul (.finite w) d.ux)) (.finite 0)
          (.finite w) := by
    rw [hp, Float32.lit_zero]
  have hy : (mutate s (.finite w) (.finite h) d).position.y
      = Clamp (Float32.add s.position.y (Float32.mul (.finite h) d.uy)) (.finite 0)
          (.finite h) := by
    rw [hp, Float32.lit_zero]
  have hc := mutate_color s (.finite w) (.finite h) d
  refine ⟨⟨?_, ?_⟩, ⟨?_, ?_⟩, ⟨?_, ?_, ?_, mutate_alpha_val s _ _ d⟩, ⟨?_, ?_, ?_, ?_, ?_⟩⟩
  · rw [hx, Clamp_eq_clampSpec _ _ _ nx hw]
  · rw [hy, Clamp_eq_clampSpec _ _ _ ny hh]
  · rw [mutate_scale_x, lit_tenth, lit_five, Clamp_eq_clampSpec _ _ _ sx (by norm_num)]
  · rw [mutate_scale_y, lit_tenth, lit_five, Clamp_eq_clampSpec _ _ _ sy (by norm_num)]
  · rw [hc.1, ClampColor_val]
  · rw [hc.2.1, ClampColor_val]
  · rw [hc.2.2.1, ClampColor_val]
  · rw [hx]
    exact Clamp_within _ _ _ nx hw
  · rw [hy]
    exact Clamp_within _ _ _ ny hh
  · rw [mutate_scale_x]
    exact scale_within _ sx
  · rw [mutate_scale_y]
    exact scale_within _ sy
  · exact mutate_alpha_le s _ _ d

/-- C4, instance: a sprite with alpha 230 mutated with alpha delta `+50` on a 100 x 50 canvas
gets alpha 220. -/
theorem mutate_clamps_witness :
    (0 : ℚ) ≤ 100 ∧ (0 : ℚ) ≤ 50 ∧ (100 : ℚ) ≤ 2 ^ 128 ∧ (50 : ℚ) ≤ 2 ^ 128
      ∧ sampleGene.position.x.isNaN = false ∧ sampleGene.position.y.isNaN = false
      ∧ sampleGene.scale.x.isNaN = false ∧ sampleGene.scale.y.isNaN = false
      ∧ sampleDraws.inRange ∧ sampleGene.color.a = 230
      ∧ (((mutate sampleGene (.finite 100) (.finite 50) sampleDraws).color.a).val : Int) = 220 :=
  ⟨by norm_num, by norm_num, by norm_num, by norm_num, rfl, rfl, rfl, rfl, sampleDraws_inRange,
    rfl,
    ((mutate_clamps sampleGene 100 50 sampleDraws (by norm_num) (by norm_num) (by norm_num)
      (by norm_num) rfl rfl rfl rfl sampleDraws_inRange).2.2.1.2.2.2).trans (by decide)⟩

/-- C5 (as stated, refuted): a sprite whose rotation is 1 radian, mutated with drawn angle
`0` degrees, still has rotation 1 radian; the drawn angle is `0` radians. -/
theorem mutate_rotation_not_overwritten :
    sampleGene.rotation = .finite 1 ∧ sampleDraws.angle = .finite 0
      ∧ RandFloatRange 0 360 sampleDraws.angle
      ∧ degrees sampleDraws.angle = .finite 0
      ∧ (mutate sampleGene (.finite 100) (.finite 50) sampleDraws).rotation = .finite 1
      ∧ (mutate sampleGene (.finite 100) (.finite 50) sampleDraws).rotation
          ≠ degrees sampleDraws.angle := by
  refine ⟨rfl, rfl, sampleDraws_inRange.2.2.1, by decide!, by decide!, by decide!⟩

/-- C5 (amended): `mutate` turns the sprite by the drawn angle: for every sprite and every
drawn angle `a`, the rotation after `mutate` is `wrapUnsigned(previous rotation + degrees(a))`,
the `float` sum of the previous rotation and the drawn angle in radians, reduced by
`sf::Angle::wrapUnsigned`; it is not independent of the previous rotation: with the same draws,
a sprite at 1 radian and the same sprite at 0 radians end at different rotations. -/
theorem mutate_rotation_adds :
    (∀ (s : gene) (cw ch : Float32) (d : MutationDraws),
        (mutate s cw ch d).rotation = wrapUnsigned (Float32.add s.rotation (degrees d.angle)))
      ∧ (mutate sampleGene (.finite 100) (.finite 50) sampleDraws).rotation
          ≠ (mutate { sampleGene with rotation := .finite 0 } (.finite 100) (.finite 50)
              sampleDraws).rotation := by
  refine ⟨fun s cw ch d => mutate_rotation_eq s cw ch d, ?_⟩
  decide!

/-! ## The hill-climb loop -/

theorem vectorSlot_of_valid (dna : List gene) (j : Int) (h0 : 0 ≤ j)
    (hlt : j < (dna.length : Int)) (hint : j < 2 ^ 31) :
    ∃ s, dna[j.toNat]? = some s ∧ vectorSlot dna j = some (j.toNat, s) := by
  have hidx : (j % 2 ^ 64).toNat = j.toNat := by
    rw [Int.emod_eq_of_lt h0 (by omega)]
  have hb : j.toNat < dna.length := by omega
  refine ⟨dna[j.toNat], List.getElem?_eq_getElem hb, ?_⟩
  unfold vectorSlot
  simp only [hidx, List.getElem?_eq_getElem hb]

theorem vectorSlot_nil (j : Int) : vectorSlot [] j = none := by
  simp [vectorSlot]

theorem trial_eq_some (render : Renderer) (t : PixelBuffer) (W H : Nat) (parent child : Individual)
    (j : Int) (d : MutationDraws) (h : trial render t W H parent j d = some child) :
    ∃ idx s, vectorSlot parent.dna j = some (idx, s)
      ∧ child.dna = parent.dna.set idx (mutate s (Float32.ofNat W) (Float32.ofNat H) d)
      ∧ child.error = evaluate render child.dna t W H := by
  unfold trial at h
  cases hv : vectorSlot parent.dna j with
  | none => simp [hv] at h
  | some pr =>
    obtain ⟨idx, s⟩ := pr
    simp only [hv, Option.some.injEq] at h
    refine ⟨idx, s, rfl, ?_, ?_⟩
    · rw [← h]
    · rw [← h]

theorem trial_of_valid (render : Renderer) (t : PixelBuffer) (W H : Nat) (parent : Individual)
    (j : Int) (d : MutationDraws) (h0 : 0 ≤ j) (hlt : j < (parent.dna.length : Int))
    (hint : j < 2 ^ 31) :
    ∃ s, parent.dna[j.toNat]? = some s
      ∧ trial render t W H parent j d
          = some { dna := parent.dna.set j.toNat (mutate s (Float32.ofNat W) (Float32.ofNat H) d),
                   error := evaluate render
                     (parent.dna.set j.toNat (mutate s (Float32.ofNat W) (Float32.ofNat H) d)) t W H } := by
  obtain ⟨s, hs, hv⟩ := vectorSlot_of_valid parent.dna j h0 hlt hint
  refine ⟨s, hs, ?_⟩
  unfold trial
  simp only [hv]

theorem step_eq_some (render : Renderer) (t : PixelBuffer) (W H : Nat) (parent p1 : Individual)
    (j : Int) (d : MutationDraws) (h : step render t W H parent j d = some p1) :
    ∃ child, trial render t W H parent j d = some child
      ∧ ((child.error < parent.error ∧ p1 = child)
          ∨ (parent.error ≤ child.error ∧ p1 = parent)) := by
  unfold step at h
  cases ht : trial render t W H parent j d with
  | none => simp [ht] at h
  | some child =>
    refine ⟨child, rfl, ?_⟩
    simp only [ht] at h
    split_ifs at h with hc
    · left
      exact ⟨hc, (Option.some.inj h).symm⟩
    · right
      exact ⟨not_lt.mp hc, (Option.some.inj h).symm⟩

theorem step_of_trial (render : Renderer) (t : PixelBuffer) (W H : Nat) (parent child : Individual)
    (j : Int) (d : MutationDraws) (h : trial render t W H parent j d = some child) :
    step render t W H parent j d
      = if child.error < parent.error then some child else some parent := by
  unfold step
  simp only [h]

theorem step_length (render : Renderer) (t : PixelBuffer) (W H : Nat) (parent p1 : Individual)
    (j : Int) (d : MutationDraws) (h : step render t W H parent j d = some p1) :
    p1.dna.length = parent.dna.length := by
  obtain ⟨child, ht, hcase⟩ := step_eq_some render t W H parent p1 j d h
  obtain ⟨idx, s, _, hdna, _⟩ := trial_eq_some render t W H parent child j d ht
  rcases hcase with ⟨_, e⟩ | ⟨_, e⟩
  · rw [e, hdna, List.length_set]
  · rw [e]

theorem step_error_le (render : Renderer) (t : PixelBuffer) (W H : Nat) (parent p1 : Individual)
    (j : Int) (d : MutationDraws) (h : step render t W H parent j d = some p1) :
    p1.error ≤ parent.error := by
  obtain ⟨child, _, hcase⟩ := step_eq_some render t W H parent p1 j d h
  rcases hcase with ⟨hlt, e⟩ | ⟨_, e⟩
  · rw [e]
    exact le_of_lt hlt
  · rw [e]

theorem burst_cons (render : Renderer) (t : PixelBuffer) (W H : Nat) (parent p2 : Individual)
    (j : Int) (d : MutationDraws) (rest : List (Int × MutationDraws))
    (h : burst render t W H parent ((j, d) :: rest) = some p2) :
    ∃ p1, step render t W H parent j d = some p1 ∧ burst render t W H p1 rest = some p2 := by
  simp only [burst] at h
  cases hs : step render t W H parent j d with
  | none => simp [hs] at h
  | some p1 =>
    simp only [hs] at h
    exact ⟨p1, rfl, h⟩

theorem burst_error_le (render : Renderer) (t : PixelBuffer) (W H : Nat)
    (inputs : List (Int × MutationDraws)) :
    ∀ (parent p2 : Individual), burst render t W H parent inputs = some p2 →
      p2.error ≤ parent.error := by
  induction inputs with
  | nil =>
    intro parent p2 h
    simp only [burst, Option.some.injEq] at h
    rw [h]
  | cons inp rest ih =>
    intro parent p2 h
    obtain ⟨j, d⟩ := inp
    obtain ⟨p1, hs, hb⟩ := burst_cons render t W H parent p2 j d rest h
    exact le_trans (ih p1 p2 hb) (step_error_le render t W H parent p1 j d hs)

theorem burst_length (render : Renderer) (t : PixelBuffer) (W H : Nat)
    (inputs : List (Int × MutationDraws)) :
    ∀ (parent p2 : Individual), burst render t W H parent inputs = some p2 →
      p2.dna.length = parent.dna.length := by
  induction inputs with
  | nil =>
    intro parent p2 h
    simp only [burst, Option.some.injEq] at h
    rw [h]
  | cons inp rest ih =>
    intro parent p2 h
    obtain ⟨j, d⟩ := inp
    obtain ⟨p1, hs, hb⟩ := burst_cons render t W H parent p2 j d rest h
    rw [ih p1 p2 hb, step_length render t W H parent p1 j d hs]

theorem burst_total (render : Renderer) (t : PixelBuffer) (W H : Nat)
    (inputs : List (Int × MutationDraws)) :
    ∀ (parent : Individual),
      (∀ inp, inp ∈ inputs → 0 ≤ inp.1 ∧ inp.1 < (parent.dna.length : Int) ∧ inp.1 < 2 ^ 31) →
      ∃ p2, burst render t W H parent inputs = some p2 := by
  induction inputs with
  | nil =>
    intro parent _
    exact ⟨parent, rfl⟩
  | cons inp rest ih =>
    intro parent hv
    obtain ⟨j, d⟩ := inp
    obtain ⟨h0, hlt, hint⟩ := hv (j, d) (List.mem_cons_self _ _)
    obtain ⟨s, _, ht⟩ := trial_of_valid render t W H parent j d h0 hlt hint
    have hs := step_of_trial render t W H parent _ j d ht
    have hex : ∃ p1, step render t W H parent j d = some p1 := by
      rw [hs]
      split_ifs
      · exact ⟨_, rfl⟩
      · exact ⟨_, rfl⟩
    obtain ⟨p1, hp1⟩ := hex
    have hlen := step_length render t W H parent p1 j d hp1
    obtain ⟨p2, hp2⟩ := ih p1 (fun inp hinp => by
      rw [hlen]
      exact hv inp (List.mem_cons_of_mem _ hinp))
    refine ⟨p2, ?_⟩
    simp only [burst, hp1, hp2]

theorem evaluate_self_eq_zero (g : PixelBuffer) (dna : List gene) (W H : Nat)
    (h : W * H < 2 ^ 30) : evaluate (constRenderer g) dna g W H = 0 := by
  rw [evaluate_eq_evaluateBuffers, evaluateBuffers_small _ _ _ _ h]
  exact (specScore_eq_zero_iff_bytes _ _ _).mpr (fun _ _ => rfl)

theorem burst_sample :
    burst (constRenderer solidBlack) solidBlack 1 1 sampleParent [(0, sampleDraws)]
      = some sampleChild := by
  decide!

/-- C2: for any renderer, target, canvas, initial candidate, indices and draws, the error of
the current candidate after any number of steps is at most the error before them; a step
replaces the current candidate by the trial exactly when the trial's error is strictly smaller,
and otherwise (ties included) returns the current candidate, genome and error, as it was; a
step that changed the candidate had a strictly smaller trial error; and the steps all complete
when every index is within the genome. -/
theorem hill_climb_monotone :
    (∀ (render : Renderer) (t : PixelBuffer) (W H : Nat) (parent p2 : Individual)
        (inputs : List (Int × MutationDraws)),
        burst render t W H parent inputs = some p2 → p2.error ≤ parent.error)
      ∧ (∀ (render : Renderer) (t : PixelBuffer) (W H : Nat) (parent child : Individual)
          (j : Int) (d : MutationDraws),
          trial render t W H parent j d = some child →
            (child.error < parent.error → step render t W H parent j d = some child)
              ∧ (parent.error ≤ child.error → step render t W H parent j d = some parent))
      ∧ (∀ (render : Renderer) (t : PixelBuffer) (W H : Nat) (parent p1 : Individual)
          (j : Int) (d : MutationDraws),
          step render t W H parent j d = some p1 → p1 ≠ parent →
            trial render t W H parent j d = some p1 ∧ p1.error < parent.error)
      ∧ (∀ (render : Renderer) (t : PixelBuffer) (W H : Nat) (parent : Individual)
          (inputs : List (Int × MutationDraws)),
          (∀ inp, inp ∈ inputs →
            0 ≤ inp.1 ∧ inp.1 < (parent.dna.length : Int) ∧ inp.1 < 2 ^ 31) →
          ∃ p2, burst render t W H parent inputs = some p2) := by
  refine ⟨?_, ?_, ?_, ?_⟩
  · intro render t W H parent p2 inputs h
    exact burst_error_le render t W H inputs parent p2 h
  · intro render t W H parent child j d ht
    rw [step_of_trial render t W H parent child j d ht]
    constructor
    · intro hlt
      rw [if_pos hlt]
    · intro hge
      rw [if_neg (not_lt.mpr hge)]
  · intro render t W H parent p1 j d hs hne
    obtain ⟨child, ht, hcase⟩ := step_eq_some render t W H parent p1 j d hs
    rcases hcase with ⟨hlt, e⟩ | ⟨_, e⟩
    · rw [e]
      exact ⟨ht, hlt⟩
    · exact absurd e hne
  · intro render t W H parent inputs hv
    exact burst_total render t W H inputs parent hv

/-- C2, instance: a candidate of error `5` whose trial renders the target exactly is replaced
by the trial, of error `0`. -/
theorem hill_climb_monotone_witness :
    burst (constRenderer solidBlack) solidBlack 1 1 sampleParent [(0, sampleDraws)]
        = some sampleChild
      ∧ sampleChild.error ≤ sampleParent.error :=
  ⟨burst_sample,
    hill_climb_monotone.1 (constRenderer solidBlack) solidBlack 1 1 sampleParent sampleChild
      [(0, sampleDraws)] burst_sample⟩

/-! ## The initial genome -/

theorem buildDna_length (dnaLength : Int) (W H : Nat) (tex : Vector2f) (draws : Nat → InitDraws) :
    ∀ (fuel : Nat) (i : Int) (dna : List gene), fuel = (dnaLength - i).toNat →
      (buildDna dnaLength W H tex draws fuel i dna).length = dna.length + fuel := by
  intro fuel
  induction fuel with
  | zero =>
    intro i dna _
    simp [buildDna]
  | succ fuel ih =>
    intro i dna hf
    have hlt : i < dnaLength := by omega
    simp only [buildDna, hlt, if_true]
    rw [ih (i + 1) _ (by omega)]
    simp only [List.length_append, List.length_singleton]
    omega

theorem initialDna_length (dnaLength : Int) (W H : Nat) (tex : Vector2f)
    (draws : Nat → InitDraws) :
    (initialDna dnaLength W H tex draws).length = dnaLength.toNat := by
  unfold initialDna
  rw [buildDna_length dnaLength W H tex draws dnaLength.toNat 0 [] (by simp)]
  simp

theorem buildDna_forall (P : gene → Prop) (dnaLength : Int) (W H : Nat) (tex : Vector2f)
    (draws : Nat → InitDraws) (hP : ∀ k, P (initialGene W H tex (draws k))) :
    ∀ (fuel : Nat) (i : Int) (dna : List gene), (∀ s, s ∈ dna → P s) →
      ∀ s, s ∈ buildDna dnaLength W H tex draws fuel i dna → P s := by
  intro fuel
  induction fuel with
  | zero =>
    intro i dna hdna s hs
    exact hdna s (by simpa [buildDna] using hs)
  | succ fuel ih =>
    intro i dna hdna s hs
    simp only [buildDna] at hs
    split_ifs at hs with hlt
    · refine ih (i + 1) _ ?_ s hs
      intro s1 hs1
      rcases List.mem_append.mp hs1 with h1 | h1
      · exact hdna s1 h1
      · rw [List.mem_singleton.mp h1]
        exact hP _
    · exact hdna s hs

theorem initialDna_forall (P : gene → Prop) (dnaLength : Int) (W H : Nat) (tex : Vector2f)
    (draws : Nat → InitDraws) (hP : ∀ k, P (initialGene W H tex (draws k))) :
    ∀ s, s ∈ initialDna dnaLength W H tex draws → P s :=
  buildDna_forall P dnaLength W H tex draws hP dnaLength.toNat 0 []
    (fun _ h => absurd h (List.not_mem_nil _))

theorem initialDna_one (W H : Nat) (tex : Vector2f) (draws : Nat → InitDraws) :
    initialDna 1 W H tex draws = [initialGene W H tex (draws 0)] := by
  simp [initialDna, buildDna]

/-! ## Frame and safety of a step -/

theorem geneIndexUpper_of_pos (n : Nat) (h1 : 1 ≤ n) (h2 : n ≤ 2 ^ 31) :
    geneIndexUpper n = (n : Int) - 1 := by
  unfold geneIndexUpper wrapInt32
  omega

/-- For a genome of `1 ≤ n ≤ 2^31` sprites every value `Rand<int>(0, n - 1)` can return is an
index of the genome, and the element access succeeds. -/
theorem geneIndex_in_range (dna : List gene) (h1 : 1 ≤ dna.length) (h2 : dna.length ≤ 2 ^ 31)
    (r : Int) (hr : RandIntRange 0 (geneIndexUpper dna.length) r) :
    (0 ≤ r ∧ r < (dna.length : Int)) ∧ ∃ s, vectorSlot dna r = some (r.toNat, s) := by
  rw [geneIndexUpper_of_pos _ h1 h2] at hr
  obtain ⟨hr0, hr1⟩ := hr
  have hlt : r < (dna.length : Int) := by omega
  have hint : r < 2 ^ 31 := by
    have : (dna.length : Int) ≤ 2 ^ 31 := by exact_mod_cast h2
    omega
  obtain ⟨s, _, hv⟩ := vectorSlot_of_valid dna r hr0 hlt hint
  exact ⟨⟨hr0, hlt⟩, s, hv⟩

theorem vectorSlot_some (dna : List gene) (j : Int) (idx : Nat) (s : gene)
    (h : vectorSlot dna j = some (idx, s)) : dna[idx]? = some s := by
  unfold vectorSlot at h
  simp only at h
  split at h
  · rename_i s1 hg
    simp only [Option.some.injEq, Prod.mk.injEq] at h
    rw [← h.1, ← h.2]
    exact hg
  · exact absurd h (by simp)

theorem burst_sampleInitial :
    burst alphaRenderer solidBlack 2 1 sampleInitial [(0, sampleDraws)] = some sampleAccepted := by
  decide!

theorem sampleInitial_length : sampleInitial.dna.length = 2 := by
  show (initialDna 2 2 1 ⟨.finite 20, .finite 20⟩ originDraws).length = 2
  rw [initialDna_length]
  rfl

/-- C6 (as stated, refuted): the command line `-d -3` is accepted with `dnaLength = -3`; the
construction loop then runs zero times, so the initial candidate, which is reachable with no
step at all, has a genome of length `0`, not `dnaLength`. -/
theorem negative_dnaLength_gives_empty_genome :
    parseArguments ["prog", "-d", "-3"] = .returned { Config.default with dnaLength := -3 }
      ∧ burst (constRenderer solidBlack) solidBlack 1 1
          (initialParent (constRenderer solidBlack) solidBlack (-3) 1 1 ⟨.finite 20, .finite 20⟩
            originDraws) []
          = some (initialParent (constRenderer solidBlack) solidBlack (-3) 1 1
              ⟨.finite 20, .finite 20⟩ originDraws)
      ∧ (initialParent (constRenderer solidBlack) solidBlack (-3) 1 1 ⟨.finite 20, .finite 20⟩
          originDraws).dna.length = 0
      ∧ (((initialParent (constRenderer solidBlack) solidBlack (-3) 1 1
          ⟨.finite 20, .finite 20⟩ originDraws).dna.length : Nat) : Int) ≠ -3 := by
  have hlen : (initialParent (constRenderer solidBlack) solidBlack (-3) 1 1
      ⟨.finite 20, .finite 20⟩ originDraws).dna.length = 0 := by
    show (initialDna (-3) 1 1 ⟨.finite 20, .finite 20⟩ originDraws).length = 0
    rw [initialDna_length]
    rfl
  refine ⟨by decide, rfl, hlen, ?_⟩
  rw [hlen]
  decide

/-- C6 (amended): for every parent and every index `j` inside its genome, the trial exists, its
genome has the parent's length, its sprite at every index other than `j` is the parent's sprite
at that index, its sprite at `j` is the mutated one, and the step returns either the trial or
the parent value itself, which building the trial does not alter; and every candidate reached
from the initial one by any number of steps has a genome of `max(dnaLength, 0)` sprites:
`dnaLength` when it is not negative, none when it is. -/
theorem trial_frame :
    (∀ (render : Renderer) (t : PixelBuffer) (W H : Nat) (parent : Individual) (j : Int)
        (d : MutationDraws),
        0 ≤ j → j < (parent.dna.length : Int) → j < 2 ^ 31 →
        ∃ child, trial render t W H parent j d = some child
          ∧ child.dna.length = parent.dna.length
          ∧ (∀ i : Nat, (i : Int) ≠ j → child.dna[i]? = parent.dna[i]?)
          ∧ (∀ s, parent.dna[j.toNat]? = some s →
              child.dna[j.toNat]? = some (mutate s (Float32.ofNat W) (Float32.ofNat H) d))
          ∧ (step render t W H parent j d = some child
              ∨ step render t W H parent j d = some parent))
      ∧ (∀ (render : Renderer) (t : PixelBuffer) (dnaLength : Int) (W H : Nat) (tex : Vector2f)
          (draws : Nat → InitDraws) (inputs : List (Int × MutationDraws)) (p2 : Individual),
          burst render t W H (initialParent render t dnaLength W H tex draws) inputs = some p2 →
          (p2.dna.length : Int) = max dnaLength 0) := by
  constructor
  · intro render t W H parent j d h0 hlt hint
    obtain ⟨s, hs, ht⟩ := trial_of_valid render t W H parent j d h0 hlt hint
    have hb : j.toNat < parent.dna.length := by omega
    refine ⟨_, ht, ?_, ?_, ?_, ?_⟩
    · simp only [List.length_set]
    · intro i hi
      have hne : j.toNat ≠ i := by omega
      simp only [List.getElem?_set_ne hne]
    · intro s1 hs1
      have e : s1 = s := Option.some.inj (hs1.symm.trans hs)
      rw [e]
      simp only [List.getElem?_set_self hb]
    · rw [step_of_trial render t W H parent _ j d ht]
      split_ifs
      · left
        rfl
      · right
        rfl
  · intro render t dnaLength W H tex draws inputs p2 hrun
    rw [burst_length render t W H inputs _ p2 hrun]
    show ((initialDna dnaLength W H tex draws).length : Int) = max dnaLength 0
    rw [initialDna_length]
    omega

/-- C6, instance: on the two-sprite candidate `sampleInitial` the trial at index `0` leaves
the sprite at index `1` as it was, and the candidate reached by one accepted step from the
initial one of `dnaLength = 2` has two sprites. -/
theorem trial_frame_witness :
    ((0 : Int) ≤ 0 ∧ (0 : Int) < (sampleInitial.dna.length : Int) ∧ (0 : Int) < 2 ^ 31
      ∧ ∃ child, trial alphaRenderer solidBlack 2 1 sampleInitial 0 sampleDraws = some child
          ∧ child.dna.length = sampleInitial.dna.length
          ∧ child.dna[1]? = sampleInitial.dna[1]?)
      ∧ (burst alphaRenderer solidBlack 2 1 sampleInitial [(0, sampleDraws)]
            = some sampleAccepted
          ∧ (sampleAccepted.dna.length : Int) = max 2 0) :=
  ⟨⟨by norm_num, by rw [sampleInitial_length]; norm_num, by norm_num,
      (trial_frame.1 alphaRenderer solidBlack 2 1 sampleInitial 0 sampleDraws (by norm_num)
        (by rw [sampleInitial_length]; norm_num) (by norm_num)).imp
        (fun _ h => ⟨h.1, h.2.1, h.2.2.1 1 (by norm_num)⟩)⟩,
    burst_sampleInitial,
    trial_frame.2 alphaRenderer solidBlack 2 2 1 ⟨.finite 20, .finite 20⟩ originDraws
      [(0, sampleDraws)] sampleAccepted burst_sampleInitial⟩

/-- C8 (failing input): with an empty genome the bound passed to `Rand<int>` is
`size() - 1 = -1`, so the distribution has no value to return, and whatever index is used the
access `child.dna[geneIndex]` is outside the vector: the step is undefined behaviour, neither a
no-op nor a reported error. -/
theorem step_on_empty_genome_undefined :
    geneIndexUpper 0 = -1
      ∧ (∀ r : Int, ¬ RandIntRange 0 (geneIndexUpper 0) r)
      ∧ ∀ (render : Renderer) (t : PixelBuffer) (W H : Nat) (e : Int) (j : Int)
          (d : MutationDraws), step render t W H { dna := [], error := e } j d = none := by
  have h : geneIndexUpper 0 = -1 := by decide
  refine ⟨h, ?_, ?_⟩
  · intro r hr
    rw [h] at hr
    obtain ⟨h1, h2⟩ := hr
    omega
  · intro render t W H e j d
    simp [step, trial, vectorSlot_nil]

/-! ## Bounds of reachable genomes -/

theorem within_isNaN (lo hi : ℚ) (x : Float32) (h : x.within lo hi) : x.isNaN = false := by
  obtain ⟨q, hq, _⟩ := h
  rw [hq]
  rfl

theorem mutate_in_bounds (s : gene) (W H : Nat) (d : MutationDraws) (hW : W ≤ 2 ^ 24)
    (hH : H ≤ 2 ^ 24) (hs : s.withinBounds W H) (hd : d.inRange) :
    (mutate s (Float32.ofNat W) (Float32.ofNat H) d).withinBounds W H
      ∧ ((mutate s (Float32.ofNat W) (Float32.ofNat H) d).color.a).val ≤ 220 := by
  obtain ⟨hpx, hpy, hsx, hsy, _⟩ := hs
  obtain ⟨hux, huy, hdx, hdy⟩ := d.finite_of_inRange hd
  rw [Float32.ofNat_exact W hW, Float32.ofNat_exact H hH]
  have hp := mutate_position s (.finite (W : ℚ)) (.finite (H : ℚ)) d
  have hWq : |(W : ℚ)| ≤ 2 ^ 128 := by
    rw [abs_of_nonneg (Nat.cast_nonneg W)]
    have h1 : (W : ℚ) ≤ 2 ^ 24 := by exact_mod_cast hW
    have h2 : (2 : ℚ) ^ 24 ≤ 2 ^ 128 := by norm_num
    linarith
  have hHq : |(H : ℚ)| ≤ 2 ^ 128 := by
    rw [abs_of_nonneg (Nat.cast_nonneg H)]
    have h1 : (H : ℚ) ≤ 2 ^ 24 := by exact_mod_cast hH
    have h2 : (2 : ℚ) ^ 24 ≤ 2 ^ 128 := by norm_num
    linarith
  have nx := position_sum_ne_nan s.position.x (W : ℚ) d.ux (within_isNaN _ _ _ hpx) hWq hux
  have ny := position_sum_ne_nan s.position.y (H : ℚ) d.uy (within_isNaN _ _ _ hpy) hHq huy
  have sx := scale_sum_ne_nan s.scale.x d.scaleDeltax (within_isNaN _ _ _ hsx) hdx
  have sy := scale_sum_ne_nan s.scale.y d.scaleDeltay (within_isNaN _ _ _ hsy) hdy
  refine ⟨⟨?_, ?_, ?_, ?_, ?_⟩, mutate_alpha_le s _ _ d⟩
  · rw [hp, Float32.lit_zero]
    exact Clamp_within _ _ _ nx (Nat.cast_nonneg W)
  · rw [hp, Float32.lit_zero]
    exact Clamp_within _ _ _ ny (Nat.cast_nonneg H)
  · rw [mutate_scale_x]
    exact scale_within _ sx
  · rw [mutate_scale_y]
    exact scale_within _ sy
  · exact ⟨by omega, by omega, by omega, by omega⟩

theorem initialGene_bounds (W H : Nat) (tex : Vector2f) (d : InitDraws) (hW : W ≤ 2 ^ 24)
    (hH : H ≤ 2 ^ 24) (hd : d.inRange W H) :
    (initialGene W H tex d).withinBounds W H ∧ (initialGene W H tex d).color = Color.White := by
  obtain ⟨⟨hx0, hx1⟩, ⟨hy0, hy1⟩, _⟩ := hd
  have hxw : d.posX ≤ (W : Int) := by
    unfold wrapInt32 at hx1
    omega
  have hyh : d.posY ≤ (H : Int) := by
    unfold wrapInt32 at hy1
    omega
  have hW2 : (W : Int) ≤ 2 ^ 24 := by exact_mod_cast hW
  have hH2 : (H : Int) ≤ 2 ^ 24 := by exact_mod_cast hH
  have px : (initialGene W H tex d).position.x = Float32.ofInt d.posX := rfl
  have py : (initialGene W H tex d).position.y = Float32.ofInt d.posY := rfl
  have sx : (initialGene W H tex d).scale.x = .finite 1 := rfl
  have sy : (initialGene W H tex d).scale.y = .finite 1 := rfl
  have hc : (initialGene W H tex d).color = Color.White := rfl
  refine ⟨⟨?_, ?_, ?_, ?_, ?_⟩, hc⟩
  · rw [px, Float32.ofInt_exact d.posX hx0 (by omega)]
    exact ⟨_, rfl, by exact_mod_cast hx0, by exact_mod_cast hxw⟩
  · rw [py, Float32.ofInt_exact d.posY hy0 (by omega)]
    exact ⟨_, rfl, by exact_mod_cast hy0, by exact_mod_cast hyh⟩
  · rw [sx]
    exact ⟨1, rfl, by norm_num, by norm_num⟩
  · rw [sy]
    exact ⟨1, rfl, by norm_num, by norm_num⟩
  · exact ⟨by omega, by omega, by omega, by omega⟩

theorem slotBounds_congr (W H : Nat) (m1 m2 : Nat → Prop) (p : Individual)
    (h : ∀ i, m1 i ↔ m2 i) (hp : p.slotBounds W H m1) : p.slotBounds W H m2 := by
  intro i s hs
  obtain ⟨h1, h2, h3⟩ := hp i s hs
  exact ⟨h1, fun hm => h2 ((h i).mpr hm), fun hm => h3 (fun hc => hm ((h i).mp hc))⟩

theorem mutatedSlots_accept (render : Renderer) (t : PixelBuffer) (W H : Nat)
    (parent child : Individual) (j : Int) (d : MutationDraws)
    (rest : List (Int × MutationDraws)) (idx : Nat) (s : gene)
    (hv : vectorSlot parent.dna j = some (idx, s))
    (ht : trial render t W H parent j d = some child) (hlt : child.error < parent.error) :
    mutatedSlots render t W H parent ((j, d) :: rest)
      = idx :: mutatedSlots render t W H child rest := by
  simp only [mutatedSlots, hv, ht, hlt, if_true]

theorem mutatedSlots_reject (render : Renderer) (t : PixelBuffer) (W H : Nat)
    (parent child : Individual) (j : Int) (d : MutationDraws)
    (rest : List (Int × MutationDraws)) (idx : Nat) (s : gene)
    (hv : vectorSlot parent.dna j = some (idx, s))
    (ht : trial render t W H parent j d = some child) (hge : parent.error ≤ child.error) :
    mutatedSlots render t W H parent ((j, d) :: rest)
      = mutatedSlots render t W H parent rest := by
  simp only [mutatedSlots, hv, ht, not_lt.mpr hge, if_false]

theorem burst_slotBounds (render : Renderer) (t : PixelBuffer) (W H : Nat) (hW : W ≤ 2 ^ 24)
    (hH : H ≤ 2 ^ 24) (inputs : List (Int × MutationDraws)) :
    ∀ (parent p2 : Individual) (mutated : Nat → Prop),
      (∀ inp, inp ∈ inputs → inp.2.inRange) →
      burst render t W H parent inputs = some p2 →
      parent.slotBounds W H mutated →
      p2.slotBounds W H (fun i => i ∈ mutatedSlots render t W H parent inputs ∨ mutated i) := by
  induction inputs with
  | nil =>
    intro parent p2 mutated _ h hinv
    simp only [burst, Option.some.injEq] at h
    rw [← h]
    refine slotBounds_congr W H mutated _ parent (fun i => ?_) hinv
    simp [mutatedSlots]
  | cons inp rest ih =>
    intro parent p2 mutated hr h hinv
    obtain ⟨j, d⟩ := inp
    have hd : d.inRange := hr (j, d) (List.mem_cons_self _ _)
    have hrest : ∀ inp, inp ∈ rest → inp.2.inRange := fun inp hi =>
      hr inp (List.mem_cons_of_mem _ hi)
    obtain ⟨p1, hs, hb⟩ := burst_cons render t W H parent p2 j d rest h
    obtain ⟨child, ht, hcase⟩ := step_eq_some render t W H parent p1 j d hs
    obtain ⟨idx, s0, hv, hdna, _⟩ := trial_eq_some render t W H parent child j d ht
    have hs0 : parent.dna[idx]? = some s0 := vectorSlot_some parent.dna j idx s0 hv
    rcases hcase with ⟨hlt, e⟩ | ⟨hge, e⟩
    · subst e
      have hidx : idx < parent.dna.length := by
        rcases Nat.lt_or_ge idx parent.dna.length with hl | hl
        · exact hl
        · rw [List.getElem?_eq_none hl] at hs0
          exact absurd hs0 (by simp)
      have hchild : p1.slotBounds W H (fun i => i = idx ∨ mutated i) := by
        intro i s hsi
        rw [hdna] at hsi
        by_cases hi : i = idx
        · subst hi
          rw [List.getElem?_set_self hidx] at hsi
          have es := Option.some.inj hsi
          have hb0 := mutate_in_bounds s0 W H d hW hH (hinv i s0 hs0).1 hd
          rw [es] at hb0
          exact ⟨hb0.1, fun _ => hb0.2, fun hn => absurd (Or.inl rfl) hn⟩
        · rw [List.getElem?_set_ne (fun hc => hi hc.symm)] at hsi
          obtain ⟨h1, h2, h3⟩ := hinv i s hsi
          refine ⟨h1, fun hm => ?_, fun hn => h3 (fun hc => hn (Or.inr hc))⟩
          rcases hm with hm | hm
          · exact absurd hm hi
          · exact h2 hm
      have := ih p1 p2 _ hrest hb hchild
      refine slotBounds_congr W H _ _ p2 (fun i => ?_) this
      rw [mutatedSlots_accept render t W H parent p1 j d rest idx s0 hv ht hlt]
      simp only [List.mem_cons]
      tauto
    · subst e
      have := ih p1 p2 mutated hrest hb hinv
      rw [mutatedSlots_reject render t W H p1 child j d rest idx s0 hv ht hge]
      exact this

theorem initialParent_slotBounds (render : Renderer) (t : PixelBuffer) (dnaLength : Int)
    (W H : Nat) (tex : Vector2f) (draws : Nat → InitDraws) (hW : W ≤ 2 ^ 24) (hH : H ≤ 2 ^ 24)
    (hdraws : ∀ i, (draws i).inRange W H) :
    (initialParent render t dnaLength W H tex draws).slotBounds W H (fun _ => False) := by
  intro i s hs
  have hmem : s ∈ initialDna dnaLength W H tex draws := List.getElem?_mem hs
  have := initialDna_forall
    (fun s => s.withinBounds W H ∧ s.color = Color.White) dnaLength W H tex draws
    (fun k => initialGene_bounds W H tex (draws k) hW hH (hdraws k)) s hmem
  exact ⟨this.1, fun hf => absurd hf id, fun _ => this.2⟩

theorem originDraws_inRange (W H : Nat) (hW : W ≤ 2 ^ 24) (hH : H ≤ 2 ^ 24) :
    ∀ i, (originDraws i).inRange W H := by
  intro i
  have h1 : (0 : Int) ≤ wrapInt32 W := by
    unfold wrapInt32
    omega
  have h2 : (0 : Int) ≤ wrapInt32 H := by
    unfold wrapInt32
    omega
  refine ⟨⟨le_refl _, h1⟩, ⟨le_refl _, h2⟩, ?_⟩
  show RandFloatRange 0 360 (.finite 0)
  unfold RandFloatRange
  decide!

theorem mutatedSlots_sampleInitial :
    mutatedSlots alphaRenderer solidBlack 2 1 sampleInitial [(0, sampleDraws)] = [0] := by
  decide!

/-- C3 (as stated, refuted): the initial genome of one sprite on a 100 x 100 canvas holds a
sprite with the constructor's tint `(255, 255, 255, 255)`, whose alpha exceeds `220`. -/
theorem initial_genome_alpha_above_cap :
    InitDraws.inRange 100 100 (originDraws 0)
      ∧ ∃ s, s ∈ initialDna 1 100 100 ⟨.finite 20, .finite 20⟩ originDraws
          ∧ s.color.a = 255 ∧ ¬ s.specBounds 100 100 := by
  refine ⟨originDraws_inRange 100 100 (by norm_num) (by norm_num) 0,
    initialGene 100 100 ⟨.finite 20, .finite 20⟩ (originDraws 0), ?_, rfl, ?_⟩
  · rw [initialDna_one]
    exact List.mem_singleton.mpr rfl
  · intro h
    have h2 : ((initialGene 100 100 ⟨.finite 20, .finite 20⟩ (originDraws 0)).color.a).val
        ≤ 220 := h.2
    exact absurd h2 (by decide)

/-- C3 (amended): on a canvas whose sides are at most `2^24` pixels (the program's canvas is at
most 256 per side), with the initial draws and the mutation draws in the ranges of their
distributions, every sprite of the initial genome and of the current genome after any number
of steps has its position in `[0, canvasWidth] x [0, canvasHeight]`, both scale components in
`[0.1, 5.0]` and every colour channel in `[0, 255]`; a sprite at an index that an accepted trial
has mutated has alpha at most `220`, and a sprite at an index never mutated still has the tint
`(255, 255, 255, 255)` it was constructed with. -/
theorem reachable_genome_bounds (render : Renderer) (t : PixelBuffer) (dnaLength : Int)
    (W H : Nat) (tex : Vector2f) (draws : Nat → InitDraws)
    (inputs : List (Int × MutationDraws)) (p2 : Individual)
    (hW : W ≤ 2 ^ 24) (hH : H ≤ 2 ^ 24)
    (hdraws : ∀ i, (draws i).inRange W H)
    (hmut : ∀ inp, inp ∈ inputs → inp.2.inRange)
    (hrun : burst render t W H (initialParent render t dnaLength W H tex draws) inputs
      = some p2) :
    ∀ (i : Nat) (s : gene), p2.dna[i]? = some s →
      s.withinBounds W H
        ∧ (i ∈ mutatedSlots render t W H (initialParent render t dnaLength W H tex draws) inputs
            → s.color.a.val ≤ 220)
        ∧ (i ∉ mutatedSlots render t W H (initialParent render t dnaLength W H tex draws) inputs
            → s.color = Color.White) := by
  have h := burst_slotBounds render t W H hW hH inputs _ p2 (fun _ => False) hmut hrun
    (initialParent_slotBounds render t dnaLength W H tex draws hW hH hdraws)
  intro i s hs
  obtain ⟨h1, h2, h3⟩ := h i s hs
  exact ⟨h1, fun hm => h2 (Or.inl hm), fun hn => h3 (fun hc => hc.elim hn id)⟩

/-- C3, instance: the two-sprite initial candidate on a 2 x 1 canvas after one accepted step
that mutated the sprite at index `0`: that sprite has alpha at most `220`, the sprite at index
`1` is still white. -/
theorem reachable_genome_bounds_witness :
    (2 ≤ 2 ^ 24 ∧ 1 ≤ 2 ^ 24)
      ∧ (∀ i, (originDraws i).inRange 2 1)
      ∧ (∀ inp, inp ∈ [((0 : Int), sampleDraws)] → inp.2.inRange)
      ∧ burst alphaRenderer solidBlack 2 1 sampleInitial [(0, sampleDraws)]
          = some sampleAccepted
      ∧ mutatedSlots alphaRenderer solidBlack 2 1 sampleInitial [(0, sampleDraws)] = [0]
      ∧ ∀ (i : Nat) (s : gene), sampleAccepted.dna[i]? = some s →
          s.withinBounds 2 1
            ∧ (i ∈ mutatedSlots alphaRenderer solidBlack 2 1 sampleInitial [(0, sampleDraws)]
                → s.color.a.val ≤ 220)
            ∧ (i ∉ mutatedSlots alphaRenderer solidBlack 2 1 sampleInitial [(0, sampleDraws)]
                → s.color = Color.White) :=
  ⟨⟨by norm_num, by norm_num⟩,
    originDraws_inRange 2 1 (by norm_num) (by norm_num),
    fun inp hinp => by
      rw [List.mem_singleton.mp hinp]
      exact sampleDraws_inRange,
    burst_sampleInitial,
    mutatedSlots_sampleInitial,
    reachable_genome_bounds alphaRenderer solidBlack 2 2 1 ⟨.finite 20, .finite 20⟩ originDraws
      [(0, sampleDraws)] sampleAccepted (by norm_num) (by norm_num)
      (originDraws_inRange 2 1 (by norm_num) (by norm_num))
      (fun inp hinp => by
        rw [List.mem_singleton.mp hinp]
        exact sampleDraws_inRange)
      burst_sampleInitial⟩

/-! ## The command line -/

theorem isSpaceChar_of_digit (c : Char) (h : isDigitChar c = true) : isSpaceChar c = false := by
  unfold isDigitChar at h
  unfold isSpaceChar
  simp only [Bool.and_eq_true, decide_eq_true_eq] at h
  simp only [Bool.or_eq_false_iff, Bool.and_eq_false_iff, decide_eq_false_iff_not]
  omega

theorem takeWhile_all (p : Char → Bool) (cs : List Char) (h : cs.all p = true) :
    cs.takeWhile p = cs := by
  induction cs with
  | nil => rfl
  | cons c cs ih =>
    simp only [List.all_cons, Bool.and_eq_true] at h
    simp only [List.takeWhile_cons, h.1, if_true, ih h.2]

theorem stoiChars_of_decimal (cs : List Char) (h : isDecimalChars cs = true)
    (hlo : -2 ^ 31 ≤ decimalValueChars cs) (hhi : decimalValueChars cs ≤ 2 ^ 31 - 1) :
    stoiChars cs = some (decimalValueChars cs) := by
  cases cs with
  | nil => simp [isDecimalChars] at h
  | cons c cs =>
    by_cases hm : c = '-'
    · subst hm
      simp only [isDecimalChars, true_or, if_true, Bool.and_eq_true, Bool.not_eq_true',
        List.isEmpty_eq_false] at h
      simp only [decimalValueChars, if_true] at hlo hhi ⊢
      have hsp : isSpaceChar '-' = false := by decide
      have htw := takeWhile_all isDigitChar cs h.2
      have hne : cs ≠ [] := by
        intro e
        rw [e] at h
        simp at h
      simp only [stoiChars, List.dropWhile_cons, hsp, List.head?_cons, true_or, if_true,
        List.tail_cons, htw, hne, if_false]
      simp only [Bool.false_eq_true, if_false, List.head?_cons, true_or, if_true,
        List.tail_cons, htw, hne]
      rw [if_pos ⟨hlo, hhi⟩]
    · by_cases hp : c = '+'
      · subst hp
        simp only [isDecimalChars, or_true, if_true, Bool.and_eq_true, Bool.not_eq_true',
          List.isEmpty_eq_false] at h
        have hd : ('+' : Char) ≠ '-' := by decide
        simp only [decimalValueChars, hd, if_false, if_true] at hlo hhi ⊢
        have hsp : isSpaceChar '+' = false := by decide
        have htw := takeWhile_all isDigitChar cs h.2
        have hne : cs ≠ [] := by
          intro e
          rw [e] at h
          simp at h
        have hh : (some '+' : Option Char) ≠ some '-' := by decide
        simp only [stoiChars, List.dropWhile_cons, hsp, Bool.false_eq_true, if_false,
          List.head?_cons, hh, or_true, if_true, List.tail_cons, htw, hne]
        rw [if_pos ⟨hlo, hhi⟩]
      · simp only [isDecimalChars, hm, hp, or_self, if_false] at h
        simp only [decimalValueChars, hm, hp, if_false] at hlo hhi ⊢
        have hc : isDigitChar c = true := by
          simp only [List.all_cons, Bool.and_eq_true] at h
          exact h.1
        have hsp : isSpaceChar c = false := isSpaceChar_of_digit c hc
        have htw := takeWhile_all isDigitChar (c :: cs) h
        have h1 : (some c : Option Char) ≠ some '-' := fun e => hm (Option.some.inj e)
        have h2 : (some c : Option Char) ≠ some '+' := fun e => hp (Option.some.inj e)
        simp only [stoiChars, List.dropWhile_cons, hsp, Bool.false_eq_true, if_false,
          List.head?_cons, h1, h2, or_self, htw]
        simp only [List.cons_ne_nil, if_false]
        rw [if_pos ⟨hlo, hhi⟩]

theorem stoi_of_decimal (v : String) (h : isDecimalInteger v = true)
    (hlo : -2 ^ 31 ≤ decimalValue v) (hhi : decimalValue v ≤ 2 ^ 31 - 1) :
    stoi v = some (decimalValue v) :=
  stoiChars_of_decimal v.toList h hlo hhi

theorem dnaValues_input (value : String) (rest : List String) (arg : String)
    (h : arg = "-i" ∨ arg = "--input" ∨ arg = "-o" ∨ arg = "--output" ∨ arg = "-s"
      ∨ arg = "--sprite") :
    dnaValues (arg :: value :: rest) = dnaValues rest := by
  rcases h with h | h | h | h | h | h <;> subst h <;> simp [dnaValues, isValueFlag]

theorem dnaValues_dna (value : String) (rest : List String) (arg : String)
    (h : arg = "-d" ∨ arg = "--dna") :
    dnaValues (arg :: value :: rest) = value :: dnaValues rest := by
  simp [dnaValues, h]

theorem dnaValues_other (value : String) (rest : List String) (arg : String)
    (h : isValueFlag arg = false) :
    dnaValues (arg :: value :: rest) = dnaValues (value :: rest) := by
  have hd : ¬ (arg = "-d" ∨ arg = "--dna") := by
    intro hd
    rcases hd with hd | hd <;> subst hd <;> simp [isValueFlag] at h
  simp [dnaValues, hd, h]

theorem parseLoop_eq_scanSpec :
    ∀ (n : Nat) (args : List String) (config : Config), args.length ≤ n →
      (∀ a, a ∈ args → a ≠ "-h" ∧ a ≠ "--help") →
      (∀ v, v ∈ dnaValues args →
        isDecimalInteger v = true ∧ -2 ^ 31 ≤ decimalValue v ∧ decimalValue v ≤ 2 ^ 31 - 1) →
      parseLoop args config = .returned (scanSpec args config) := by
  intro n
  induction n with
  | zero =>
    intro args config hlen _ _
    have : args = [] := List.length_eq_zero.mp (by omega)
    subst this
    simp [parseLoop, scanSpec]
  | succ n ih =>
    intro args config hlen hhelp hdna
    match args, hlen, hhelp, hdna with
    | [], _, _, _ => simp [parseLoop, scanSpec]
    | [arg], _, hhelp, _ =>
      have h := hhelp arg (List.mem_singleton.mpr rfl)
      simp [parseLoop, scanSpec, h.1, h.2]
    | arg :: value :: rest, hlen, hhelp, hdna =>
      have hh := hhelp arg (List.mem_cons_self _ _)
      have hrest : ∀ a, a ∈ rest → a ≠ "-h" ∧ a ≠ "--help" := fun a ha =>
        hhelp a (List.mem_cons_of_mem _ (List.mem_cons_of_mem _ ha))
      have htail : ∀ a, a ∈ value :: rest → a ≠ "-h" ∧ a ≠ "--help" := fun a ha =>
        hhelp a (List.mem_cons_of_mem _ ha)
      have hl1 : rest.length ≤ n := by
        simp only [List.length_cons] at hlen
        omega
      have hl2 : (value :: rest).length ≤ n := by
        simp only [List.length_cons] at hlen ⊢
        omega
      by_cases hi : arg = "-i" ∨ arg = "--input"
      · have hd := dnaValues_input value rest arg (by tauto)
        rw [hd] at hdna
        simp only [parseLoop, scanSpec, hi, if_true]
        exact ih rest _ hl1 hrest hdna
      · by_cases ho : arg = "-o" ∨ arg = "--output"
        · have hd := dnaValues_input value rest arg (by tauto)
          rw [hd] at hdna
          simp only [parseLoop, scanSpec, hi, ho, if_true, if_false]
          exact ih rest _ hl1 hrest hdna
        · by_cases hs : arg = "-s" ∨ arg = "--sprite"
          · have hd := dnaValues_input value rest arg (by tauto)
            rw [hd] at hdna
            simp only [parseLoop, scanSpec, hi, ho, hs, if_true, if_false]
            exact ih rest _ hl1 hrest hdna
          · by_cases hdn : arg = "-d" ∨ arg = "--dna"
            · have hd := dnaValues_dna value rest arg hdn
              rw [hd] at hdna
              have hv := hdna value (List.mem_cons_self _ _)
              have hst := stoi_of_decimal value hv.1 hv.2.1 hv.2.2
              simp only [parseLoop, scanSpec, hi, ho, hs, hdn, if_true, if_false, hst]
              exact ih rest _ hl1 hrest (fun v hv1 => hdna v (List.mem_cons_of_mem _ hv1))
            · have hnv : isValueFlag arg = false := by
                simp only [isValueFlag, Bool.or_eq_false_iff, decide_eq_false_iff_not]
                tauto
              have hd := dnaValues_other value rest arg hnv
              rw [hd] at hdna
              have hnh : ¬ (arg = "-h" ∨ arg = "--help") := by tauto
              simp only [parseLoop, scanSpec, hi, ho, hs, hdn, hnh, if_false]
              exact ih (value :: rest) _ hl2 htail hdna

theorem scanSpec_unrecognised :
    ∀ (n : Nat) (args : List String) (config : Config), args.length ≤ n →
      (∀ a, a ∈ args → isValueFlag a = false) → scanSpec args config = config := by
  intro n
  induction n with
  | zero =>
    intro args config hlen _
    have : args = [] := List.length_eq_zero.mp (by omega)
    subst this
    simp [scanSpec]
  | succ n ih =>
    intro args config hlen hun
    match args, hlen, hun with
    | [], _, _ => simp [scanSpec]
    | [arg], _, _ => simp [scanSpec]
    | arg :: value :: rest, hlen, hun =>
      have h := hun arg (List.mem_cons_self _ _)
      simp only [isValueFlag, Bool.or_eq_false_iff, decide_eq_false_iff_not] at h
      have hi : ¬ (arg = "-i" ∨ arg = "--input") := by tauto
      have ho : ¬ (arg = "-o" ∨ arg = "--output") := by tauto
      have hs : ¬ (arg = "-s" ∨ arg = "--sprite") := by tauto
      have hd : ¬ (arg = "-d" ∨ arg = "--dna") := by tauto
      simp only [scanSpec, hi, ho, hs, hd, if_false]
      refine ih (value :: rest) config ?_ (fun a ha => hun a (List.mem_cons_of_mem _ ha))
      simp only [List.length_cons] at hlen ⊢
      omega

/-- C9 (as stated, refuted): the argument list `-d 2147483648` contains no help flag and its
`-d` value is a decimal integer, yet `std::stoi` throws `std::out_of_range` and
`parseArguments` does not return. -/
theorem parseArguments_throws_on_large_integer :
    (∀ a, a ∈ ["-d", "2147483648"] → a ≠ "-h" ∧ a ≠ "--help")
      ∧ (∀ v, v ∈ dnaValues ["-d", "2147483648"] → isDecimalInteger v = true)
      ∧ parseArguments ["prog", "-d", "2147483648"] = .stoiThrew
      ∧ ¬ ∃ config, parseArguments ["prog", "-d", "2147483648"] = .returned config := by
  have h : parseArguments ["prog", "-d", "2147483648"] = .stoiThrew := by decide
  refine ⟨by decide, by decide, h, ?_⟩
  rintro ⟨config, hc⟩
  rw [h] at hc
  exact absurd hc (by simp)

/-- C9 (amended): for every argument list that contains no `-h` or `--help` and whose `-d` or
`--dna` values are decimal integers in the range of `int`, `parseArguments` returns the default
configuration updated by the left-to-right scan `scanSpec`: a value-taking flag that has a
following argument sets its field to that argument and consumes it, every other argument
changes nothing and consumes nothing; so a list without any value-taking flag yields exactly
the defaults. -/
theorem parseArguments_eq_scan (prog : String) (args : List String)
    (hhelp : ∀ a, a ∈ args → a ≠ "-h" ∧ a ≠ "--help")
    (hdna : ∀ v, v ∈ dnaValues args →
      isDecimalInteger v = true ∧ -2 ^ 31 ≤ decimalValue v ∧ decimalValue v ≤ 2 ^ 31 - 1) :
    parseArguments (prog :: args) = .returned (scanSpec args Config.default)
      ∧ ((∀ a, a ∈ args → isValueFlag a = false) →
          parseArguments (prog :: args) = .returned Config.default) := by
  have h : parseArguments (prog :: args) = .returned (scanSpec args Config.default) :=
    parseLoop_eq_scanSpec args.length args Config.default (le_refl _) hhelp hdna
  refine ⟨h, ?_⟩
  intro hun
  rw [h, scanSpec_unrecognised args.length args Config.default (le_refl _) hun]

/-- C9, instance: `-d 42 -x -i` sets the genome length to 42, ignores the unrecognised `-x` and
ignores the final `-i`, which has no value after it. -/
theorem parseArguments_eq_scan_witness :
    (∀ a, a ∈ ["-d", "42", "-x", "-i"] → a ≠ "-h" ∧ a ≠ "--help")
      ∧ (∀ v, v ∈ dnaValues ["-d", "42", "-x", "-i"] →
          isDecimalInteger v = true ∧ -2 ^ 31 ≤ decimalValue v ∧ decimalValue v ≤ 2 ^ 31 - 1)
      ∧ parseArguments ["prog", "-d", "42", "-x", "-i"]
          = .returned { Config.default with dnaLength := 42 } :=
  ⟨by decide, by decide,
    ((parseArguments_eq_scan "prog" ["-d", "42", "-x", "-i"] (by decide) (by decide)).1).trans
      (by decide)⟩

end GeneticPhoto
